import Mathlib

/-
Verification of the mcpway transport-gateway core against its
natural-language specification.

The Rust sources are shallowly embedded: strings are lists of characters,
`serde_json::Value` is the inductive `Json` below, `std::time::Duration`
is a count of nanoseconds bounded by `durationMax`, `Instant` is an
abstract `Nat` tick, and effectful operations (HTTP sends, file writes)
are represented by explicit outcome sequences or effect traces.
-/

/-- Rust strings are embedded as lists of characters. -/
abbrev Str := List Char

/-- Convenience conversion from Lean string literals to the embedding. -/
def chars (s : String) : Str := s.data

/-- Embedding of `serde_json::Value`.  Numbers are restricted to (signed)
integers, which covers every value the verified code paths construct or
inspect; object fields are an association list in insertion order
(matching `serde_json`'s `preserve_order` map behaviour). -/
inductive Json where
  | null
  | bool (b : Bool)
  | num (n : Int)
  | str (s : Str)
  | arr (items : List Json)
  | obj (fields : List (Str × Json))

/-- Look up the first field with the given key in an object field list. -/
def getField (fields : List (Str × Json)) (key : Str) : Option Json :=
  match fields with
  | [] => none
  | (k, v) :: rest => if k = key then some v else getField rest key

/-- Embedding of `serde_json::Value::get` for string keys. -/
def Json.get (j : Json) (key : Str) : Option Json :=
  match j with
  | Json.obj fields => getField fields key
  | _ => none

/-- Embedding of `serde_json::Map::contains_key`. -/
def containsKey (fields : List (Str × Json)) (key : Str) : Bool :=
  match fields with
  | [] => false
  | (k, _) :: rest => if k = key then true else containsKey rest key

/-- Embedding of `serde_json::Value::as_str`. -/
def Json.asStr (j : Json) : Option Str :=
  match j with
  | Json.str s => some s
  | _ => none

/-- Embedding of `serde_json::Value::as_i64`: integers in the `i64` range. -/
def Json.asI64 (j : Json) : Option Int :=
  match j with
  | Json.num n => if -(2 ^ 63) ≤ n ∧ n < 2 ^ 63 then some n else none
  | _ => none

/-- Embedding of `serde_json::Value::as_array`. -/
def Json.asArr (j : Json) : Option (List Json) :=
  match j with
  | Json.arr items => some items
  | _ => none

/-- Whether the value is a JSON object (`Value::is_object`). -/
def Json.isObj (j : Json) : Bool :=
  match j with
  | Json.obj _ => true
  | _ => false

/-! ## transport/reliability.rs -/

/-- `Duration::MAX` in nanoseconds: `u64::MAX` seconds plus `10^9 - 1`
nanoseconds.  Durations are embedded as nanosecond counts `≤ durationMax`. -/
def durationMax : Nat := (2 ^ 64 - 1) * 1000000000 + 999999999

/-- `u32::MAX`, the saturation point of `u32::saturating_add`. -/
def u32Max : Nat := 2 ^ 32 - 1

/-- Embedding of `Duration::checked_mul` by a `u32` multiplier: `none` on
overflow past `Duration::MAX`. -/
def durationCheckedMul (d m : Nat) : Option Nat :=
  if d * m ≤ durationMax then some (d * m) else none

/-- `RetryPolicy` from transport/reliability.rs. -/
structure RetryPolicy where
  max_retries : Nat
  base_delay : Nat
  max_delay : Nat
deriving DecidableEq

/-- Embedding of `RetryPolicy::backoff_delay`. -/
def RetryPolicy.backoff_delay (p : RetryPolicy) (retry_index : Nat) : Nat :=
  if p.base_delay = 0 then 0
  else
    let shift := min retry_index 16
    let multiplier := 2 ^ shift
    min ((durationCheckedMul p.base_delay multiplier).getD p.max_delay) p.max_delay

/-- `CircuitBreakerPolicy` from transport/reliability.rs. -/
structure CircuitBreakerPolicy where
  failure_threshold : Nat
  cooldown : Nat
deriving DecidableEq

/-- `CircuitBreaker` from transport/reliability.rs; `open_until` holds the
abstract instant until which the breaker is open. -/
structure CircuitBreaker where
  policy : CircuitBreakerPolicy
  consecutive_failures : Nat
  open_until : Option Nat
deriving DecidableEq

/-- Embedding of `CircuitBreaker::new`. -/
def CircuitBreaker.new (policy : CircuitBreakerPolicy) : CircuitBreaker :=
  { policy := policy, consecutive_failures := 0, open_until := none }

/-- Embedding of `CircuitBreaker::wait_if_open`: the waiting itself is not
modelled (it only consumes time); the function returns the state the
breaker is left in after the call returns. -/
def CircuitBreaker.wait_if_open (cb : CircuitBreaker) : CircuitBreaker :=
  match cb.open_until with
  | some _ => { cb with open_until := none, consecutive_failures := 0 }
  | none => cb

/-- Embedding of `CircuitBreaker::record_success`. -/
def CircuitBreaker.record_success (cb : CircuitBreaker) : CircuitBreaker :=
  { cb with consecutive_failures := 0, open_until := none }

/-- Embedding of `CircuitBreaker::record_failure`; `now` is the abstract
current instant (`Instant::now()`). -/
def CircuitBreaker.record_failure (now : Nat) (cb : CircuitBreaker) :
    Option Nat × CircuitBreaker :=
  let failures := min (cb.consecutive_failures + 1) u32Max
  if cb.policy.failure_threshold = 0 ∨ failures < cb.policy.failure_threshold then
    (none, { cb with consecutive_failures := failures })
  else
    (some cb.policy.cooldown,
      { cb with consecutive_failures := 0,
                open_until := some (now + cb.policy.cooldown) })

/-- The breaker state after `n` consecutive `record_failure` calls. -/
def recordFailures (now : Nat) (cb : CircuitBreaker) : Nat → CircuitBreaker
  | 0 => cb
  | n + 1 => (CircuitBreaker.record_failure now (recordFailures now cb n)).2

/-- Result of `run_with_retry`: the returned value or final error, the
circuit-breaker state it leaves behind, and how many times the underlying
operation was invoked. -/
structure RetryResult (α : Type) where
  result : Except Str α
  breaker : CircuitBreaker
  attempts : Nat

/-- Loop body of `run_with_retry`: one iteration of
`for attempt in 0..=max_retries`.  `remaining` counts the iterations still
allowed after this one (so `remaining = max_retries - attempt`, making the
`attempt >= max_retries` exit the `remaining = 0` case).  `op k` is the
outcome of the `k`-th invocation of the operation; `clock k` is the
instant at which that attempt fails (sleeps between attempts are not
modelled, they only consume time). -/
def runWithRetryGo (clock : Nat → Nat) (op : Nat → Except Str α) :
    Nat → CircuitBreaker → Nat → RetryResult α
  | remaining, cb, attempt =>
    let cb2 := cb.wait_if_open
    match op attempt with
    | .ok v =>
      { result := .ok v, breaker := cb2.record_success, attempts := attempt + 1 }
    | .error e =>
      let fr := CircuitBreaker.record_failure (clock attempt) cb2
      match remaining with
      | 0 => { result := .error e, breaker := fr.2, attempts := attempt + 1 }
      | r + 1 => runWithRetryGo clock op r fr.2 (attempt + 1)

/-- Embedding of `run_with_retry`.  The `label` only feeds log lines and
the (unreachable) post-loop error string, so it is carried but unused. -/
def run_with_retry (label : Str) (pol : RetryPolicy) (clock : Nat → Nat)
    (cb : CircuitBreaker) (op : Nat → Except Str α) : RetryResult α :=
  runWithRetryGo clock op pol.max_retries cb 0

/-! ## Decimal formatting and parsing

Embeddings of Rust's decimal integer formatting (`format!("{n}")`) and of
`str::parse::<i64>`, used by the id prefixing in gateways/stdio_to_grpc.rs
and by the `"MCP error <code>:"` prefix in the gateways. -/

/-- The ASCII digit character for a digit value. -/
def digitChar (d : Nat) : Char := Char.ofNat (48 + d)

/-- Little-endian decimal digits of a natural number (empty for 0); the
first argument is recursion fuel, always called with `fuel ≥ n` so the
result is fuel-independent (structural recursion keeps it kernel-reducible). -/
def natDigitsRevFuel : Nat → Nat → List Nat
  | 0, _ => []
  | _ + 1, 0 => []
  | fuel + 1, n + 1 => (n + 1) % 10 :: natDigitsRevFuel fuel ((n + 1) / 10)

/-- Little-endian decimal digits of a natural number (empty for 0). -/
def natDigitsRev (n : Nat) : List Nat := natDigitsRevFuel n n

/-- Value of a little-endian digit list (base 10). -/
def ofDigitsLE : List Nat → Nat
  | [] => 0
  | d :: rest => d + 10 * ofDigitsLE rest

/-- Decimal rendering of a natural number (most significant digit first). -/
def natDecChars (n : Nat) : Str :=
  if n = 0 then ['0'] else (natDigitsRev n).reverse.map digitChar

/-- Decimal rendering of a signed integer, as Rust's `Display` for `i64`. -/
def intToDecChars (n : Int) : Str :=
  if n < 0 then '-' :: natDecChars n.natAbs else natDecChars n.toNat

/-- The digit value of an ASCII digit character, `none` otherwise. -/
def charDigit (c : Char) : Option Nat :=
  if 48 ≤ c.toNat ∧ c.toNat ≤ 57 then some (c.toNat - 48) else none

/-- Folds decimal digits (most significant first), failing on a non-digit. -/
def parseDecDigits (cs : Str) : Option Nat :=
  cs.foldl (fun acc c => acc.bind fun a => (charDigit c).map fun d => a * 10 + d)
    (some 0)

/-- Embedding of `str::parse::<i64>`: an optional sign followed by one or
more ASCII digits, rejecting values outside the `i64` range. -/
def parseI64 (s : Str) : Option Int :=
  let core : Str → Int → Option Int := fun digits sign =>
    if digits = [] then none
    else
      (parseDecDigits digits).bind fun n =>
        let v : Int := sign * (n : Int)
        if -(2 ^ 63) ≤ v ∧ v < 2 ^ 63 then some v else none
  match s with
  | [] => core [] 1
  | c :: rest =>
    if c = '-' then core rest (-1)
    else if c = '+' then core rest 1
    else core (c :: rest) 1

/-! ## Gateways: sse_to_stdio.rs and streamable_http_to_stdio.rs

Both gateway files define textually identical helpers `is_request`,
`is_initialize_request`, `wrap_response`, `error_payload` and
`normalize_error_message`, and their stdin loops handle a decoded request
message identically once the SSE gateway has obtained its message
endpoint; the shared embeddings below cover both files. -/

/-- Embedding of Rust `char::is_whitespace` (Unicode `White_Space`). -/
def isRustWhitespace (c : Char) : Bool :=
  let n := c.toNat
  (decide (9 ≤ n) && decide (n ≤ 13)) || decide (n = 32) || decide (n = 133) ||
    decide (n = 160) || decide (n = 5760) ||
    (decide (8192 ≤ n) && decide (n ≤ 8202)) || decide (n = 8232) ||
    decide (n = 8233) || decide (n = 8239) || decide (n = 8287) ||
    decide (n = 12288)

/-- Embedding of Rust `str::trim`. -/
def trimChars (s : Str) : Str :=
  ((s.dropWhile isRustWhitespace).reverse.dropWhile isRustWhitespace).reverse

/-- Embedding of `is_request`: the message carries both a method and an id. -/
def is_request (message : Json) : Bool :=
  (message.get (chars "method")).isSome && (message.get (chars "id")).isSome

/-- Embedding of `is_initialize_request`. -/
def is_initialize_request (message : Json) : Bool :=
  match (message.get (chars "method")).bind Json.asStr with
  | some m => if m = chars "initialize" then true else false
  | none => false

/-- Embedding of `error_payload`. -/
def error_payload (code : Int) (message : Str) : Json :=
  Json.obj [(chars "error",
    Json.obj [(chars "code", Json.num code), (chars "message", Json.str message)])]

/-- Embedding of `normalize_error_message`: strips a redundant
`"MCP error <code>:"` prefix. -/
def normalize_error_message (code : Int) (message : Str) : Str :=
  let pre := chars "MCP error " ++ intToDecChars code ++ [':']
  if pre.isPrefixOf message then trimChars (message.drop pre.length) else message

/-- Embedding of `wrap_response`: builds the response envelope with
`jsonrpc` and `id` taken from the inbound request. -/
def wrap_response (req : Json) (payload : Json) : Json :=
  let jsonrpc := (req.get (chars "jsonrpc")).getD (Json.str (chars "2.0"))
  let id := (req.get (chars "id")).getD Json.null
  let base := [(chars "jsonrpc", jsonrpc), (chars "id", id)]
  match payload.get (chars "error") with
  | some err =>
    match (err.get (chars "code")).bind Json.asI64 with
    | some code =>
      let message := ((err.get (chars "message")).bind Json.asStr).getD
        (chars "Internal error")
      Json.obj (base ++ [(chars "error",
        Json.obj [(chars "code", Json.num code),
                  (chars "message", Json.str (normalize_error_message code message))])])
    | none => Json.obj (base ++ [(chars "error", err)])
  | none =>
    match payload.get (chars "result") with
    | some result => Json.obj (base ++ [(chars "result", result)])
    | none => Json.obj base

/-- Embedding of `send_request`: the outcome of attempt `k` of the inner
HTTP POST plus payload parsing is `op k`; on retry exhaustion the error
string is wrapped as a `-32000` error payload. -/
def send_request (label : Str) (pol : RetryPolicy) (clock : Nat → Nat)
    (cb : CircuitBreaker) (op : Nat → Except Str Json) : Json × CircuitBreaker :=
  let r := run_with_retry label pol clock cb op
  match r.result with
  | .ok payload => (payload, r.breaker)
  | .error err => (error_payload (-32000) err, r.breaker)

/-- Embedding of `send_initialized_notification` (renamed here because of a
lexical restriction on names): the `notifications/initialized` POST is run
through `run_with_retry`; `op k` is the outcome of its `k`-th attempt. -/
def send_initialized (label : Str) (pol : RetryPolicy) (clock : Nat → Nat)
    (cb : CircuitBreaker) (op : Nat → Except Str Unit) : RetryResult Unit :=
  run_with_retry label pol clock cb op

/-- Mutable state of a gateway stdin loop across lines. -/
structure GatewaySt where
  initialized : Bool
  breaker : CircuitBreaker

/-- Outcome sequences for the effectful operations one loop iteration may
perform (synthetic initialize, the two initialized-notification sites, and
the main request send). -/
structure LineOps where
  initOp : Nat → Except Str Json
  notifyOp : Nat → Except Str Unit
  mainOp : Nat → Except Str Json
  notifyOp2 : Nat → Except Str Unit

/-- The request-handling part of the stdin loop body, identical in
sse_to_stdio.rs and streamable_http_to_stdio.rs: auto-initialize if
needed, send the request, send the post-initialize notification, and emit
exactly the wrapped response.  Returns the emitted lines and new state. -/
def gatewayHandleRequest (reqLabel notifyLabel : Str) (pol : RetryPolicy)
    (clock : Nat → Nat) (st : GatewaySt) (message : Json) (ops : LineOps) :
    List Json × GatewaySt :=
  let phase1 : List Json × GatewaySt ⊕ GatewaySt :=
    if !st.initialized && !is_initialize_request message then
      let r := send_request reqLabel pol clock st.breaker ops.initOp
      if (r.1.get (chars "error")).isSome then
        Sum.inl ([wrap_response message r.1], { st with breaker := r.2 })
      else
        let n := send_initialized notifyLabel pol clock r.2 ops.notifyOp
        Sum.inr { st with breaker := n.breaker, initialized := n.result.isOk }
    else Sum.inr st
  match phase1 with
  | Sum.inl out => out
  | Sum.inr st =>
    let r := send_request reqLabel pol clock st.breaker ops.mainOp
    let st := { st with breaker := r.2 }
    let st :=
      if is_initialize_request message && !(r.1.get (chars "error")).isSome
          && !st.initialized then
        let n := send_initialized notifyLabel pol clock st.breaker ops.notifyOp2
        { st with breaker := n.breaker, initialized := n.result.isOk }
      else st
    ([wrap_response message r.1], st)

/-- Loop body of the SSE→stdio gateway for one decoded message:
non-requests pass through; a missing message endpoint is surfaced as a
`-32000` error envelope; otherwise the shared request handling runs. -/
def sseHandleLine (pol : RetryPolicy) (clock : Nat → Nat) (st : GatewaySt)
    (message : Json) (endpointRes : Except Str Unit) (ops : LineOps) :
    List Json × GatewaySt :=
  if !is_request message then ([message], st)
  else
    match endpointRes with
    | .error err => ([wrap_response message (error_payload (-32000) err)], st)
    | .ok _ =>
      gatewayHandleRequest (chars "sse-request")
        (chars "sse-initialized-notification") pol clock st message ops

/-- Loop body of the Streamable-HTTP→stdio gateway for one decoded
message. -/
def streamableHandleLine (pol : RetryPolicy) (clock : Nat → Nat)
    (st : GatewaySt) (message : Json) (ops : LineOps) :
    List Json × GatewaySt :=
  if !is_request message then ([message], st)
  else
    gatewayHandleRequest (chars "streamable-http-request")
      (chars "streamable-http-initialized-notification") pol clock st message ops

/-! ## gateways/stdio_to_grpc.rs: fan-in id prefixing -/

/-- Lowercase hexadecimal digit character. -/
def hexDigitChar (d : Nat) : Char :=
  if d < 10 then Char.ofNat (48 + d) else Char.ofNat (87 + d)

/-- JSON string escaping as performed by `serde_json` when serializing. -/
def escapeJsonChar (c : Char) : Str :=
  if c = '"' then ['\\', '"']
  else if c = '\\' then ['\\', '\\']
  else if c.toNat = 8 then ['\\', 'b']
  else if c.toNat = 9 then ['\\', 't']
  else if c.toNat = 10 then ['\\', 'n']
  else if c.toNat = 12 then ['\\', 'f']
  else if c.toNat = 13 then ['\\', 'r']
  else if c.toNat < 32 then
    ['\\', 'u', '0', '0', hexDigitChar (c.toNat / 16), hexDigitChar (c.toNat % 16)]
  else [c]

mutual
/-- Compact JSON serialization (`serde_json::Value`'s `Display`). -/
def jsonDump : Json → Str
  | Json.null => chars "null"
  | Json.bool true => chars "true"
  | Json.bool false => chars "false"
  | Json.num n => intToDecChars n
  | Json.str s => '"' :: (s.map escapeJsonChar).flatten ++ ['"']
  | Json.arr items => '[' :: jsonDumpList items ++ [']']
  | Json.obj fields => Char.ofNat 123 :: jsonDumpFields fields ++ [Char.ofNat 125]

/-- Serializes array elements, comma separated. -/
def jsonDumpList : List Json → Str
  | [] => []
  | [x] => jsonDump x
  | x :: y :: rest => jsonDump x ++ ',' :: jsonDumpList (y :: rest)

/-- Serializes object fields, comma separated. -/
def jsonDumpFields : List (Str × Json) → Str
  | [] => []
  | [(k, v)] => '"' :: (k.map escapeJsonChar).flatten ++ '"' :: ':' :: jsonDump v
  | (k, v) :: p :: rest =>
    '"' :: (k.map escapeJsonChar).flatten ++ '"' :: ':' :: jsonDump v ++
      ',' :: jsonDumpFields (p :: rest)
end

/-- Embedding of `prefix_id`: encodes `(client_tag, original_id)` as the
string `"<tag>:<id>"`. -/
def prefix_id (client_id : Str) (id : Json) : Json :=
  match id with
  | Json.str s => Json.str (client_id ++ ':' :: s)
  | Json.num n => Json.str (client_id ++ ':' :: intToDecChars n)
  | _ => Json.str (client_id ++ ':' :: jsonDump id)

/-- Splits at the first occurrence of `sep` (Rust `splitn(2, sep)` when the
separator occurs; `none` when it does not). -/
def splitOnceChar (sep : Char) : Str → Option (Str × Str)
  | [] => none
  | c :: rest =>
    if c = sep then some ([], rest)
    else (splitOnceChar sep rest).map fun p => (c :: p.1, p.2)

/-- Embedding of `strip_prefixed_id`: recovers `(client_tag, original_id)`
from a response whose id is a prefixed string; numeric suffixes that parse
as `i64` are restored as JSON numbers. -/
def strip_prefixed_id (message : Json) : Option (Str × Json) :=
  (message.get (chars "id")).bind fun idVal =>
    idVal.asStr.bind fun idStr =>
      (splitOnceChar ':' idStr).bind fun p =>
        some (p.1,
          match parseI64 p.2 with
          | some n => Json.num n
          | none => Json.str p.2)

/-! ## transport/pool.rs: warm-cache persistence and fingerprint

`crate::types::HeadersMap` is not part of the sources; per the spec's data
model (§3 RuntimeArgs) it is an ordered case-preserving map from string to
string, embedded here as an association list in insertion order. -/

/-- A filesystem effect performed by persistence code. -/
inductive FsOp where
  | createDirAll (path : Str)
  | write (path : Str) (content : Json)
  | rename (src dst : Str)

/-- Whether an effect is a rename. -/
def FsOp.isRename : FsOp → Bool
  | FsOp.rename _ _ => true
  | _ => false

/-- `WarmHint` from transport/pool.rs. -/
structure WarmHint where
  transport : Str
  last_success_utc : Nat

/-- `WarmHintStore` from transport/pool.rs (`records` is a `BTreeMap`). -/
structure WarmHintStore where
  records : List (Str × WarmHint)

/-- Serialization of a `WarmHint` (serde derive). -/
def serializeWarmHint (h : WarmHint) : Json :=
  Json.obj [(chars "transport", Json.str h.transport),
            (chars "last_success_utc", Json.num h.last_success_utc)]

/-- Serialization of a `WarmHintStore` (serde derive). -/
def serializeWarmHintStore (s : WarmHintStore) : Json :=
  Json.obj [(chars "records",
    Json.obj (s.records.map fun kv => (kv.1, serializeWarmHint kv.2)))]

/-- Embedding of `persist_warm_hint_store` as its filesystem effect trace:
`path` is `warm_cache_path()` and `parent` its `Path::parent`.  The
function creates the parent directory and writes the serialized store
directly to the target path with `std::fs::write`. -/
def persist_warm_hint_store (path : Str) (parent : Option Str)
    (store : WarmHintStore) : Except Str (List FsOp) :=
  match parent with
  | none => .error (chars "Invalid warm cache path: " ++ path)
  | some parent =>
    .ok [FsOp.createDirAll parent,
         FsOp.write path (serializeWarmHintStore store)]

/-- Rust `u8::to_ascii_lowercase` on a character. -/
def asciiLowerChar (c : Char) : Char :=
  if 65 ≤ c.toNat ∧ c.toNat ≤ 90 then Char.ofNat (c.toNat + 32) else c

/-- Rust `str::to_ascii_lowercase`. -/
def asciiLower (s : Str) : Str := s.map asciiLowerChar

/-- Rust `str::eq_ignore_ascii_case`. -/
def eqIgnoreAsciiCase (a b : Str) : Bool := decide (asciiLower a = asciiLower b)

/-- Byte-lexicographic `≤` on strings (the `Ord` used by `Vec::sort`;
UTF-8 byte order coincides with code-point order). -/
def strLeB : Str → Str → Bool
  | [], _ => true
  | _ :: _, [] => false
  | a :: as, b :: bs => if a = b then strLeB as bs else decide (a < b)

/-- `Vec::<String>::sort()`. -/
def sortStrs (l : List Str) : List Str := l.mergeSort strLeB

/-- `Vec::<String>::join(sep)` for a one-character separator. -/
def joinSep (sep : Char) : List Str → Str
  | [] => []
  | [s] => s
  | s :: t :: rest => s ++ sep :: joinSep sep (t :: rest)

/-- The lowercased `key=value` rendering of the header pairs. -/
def headerPairs (headers : List (Str × Str)) : List Str :=
  headers.map fun kv => asciiLower kv.1 ++ '=' :: kv.2

/-- The string hashed by `transport_fingerprint`:
`transport|endpoint|protocol_version|` followed by the sorted lowercased
`key=value` pairs joined with `;`. -/
def fingerprintPayload (transport endpoint_or_command : Str)
    (headers : List (Str × Str)) (protocol_version : Str) : Str :=
  transport ++ '|' :: endpoint_or_command ++ '|' :: protocol_version ++
    '|' :: joinSep ';' (sortStrs (headerPairs headers))

/-! SHA-256 (FIPS 180-4), the algorithm of the `sha2` crate used by
`sha256_hex`. -/

/-- Reduction to a 32-bit word. -/
def u32of (n : Nat) : Nat := n % 4294967296

/-- 32-bit right rotation. -/
def rotr32 (r x : Nat) : Nat := u32of (x / 2 ^ r + x % 2 ^ r * 2 ^ (32 - r))

/-- Bitwise choice. -/
def sha256Ch (x y z : Nat) : Nat :=
  Nat.xor (Nat.land x y) (Nat.land (Nat.xor x 4294967295) z)

/-- Bitwise majority. -/
def sha256Maj (x y z : Nat) : Nat :=
  Nat.xor (Nat.xor (Nat.land x y) (Nat.land x z)) (Nat.land y z)

/-- Big sigma-0. -/
def bSig0 (x : Nat) : Nat := Nat.xor (Nat.xor (rotr32 2 x) (rotr32 13 x)) (rotr32 22 x)

/-- Big sigma-1. -/
def bSig1 (x : Nat) : Nat := Nat.xor (Nat.xor (rotr32 6 x) (rotr32 11 x)) (rotr32 25 x)

/-- Small sigma-0. -/
def sSig0 (x : Nat) : Nat := Nat.xor (Nat.xor (rotr32 7 x) (rotr32 18 x)) (x / 2 ^ 3)

/-- Small sigma-1. -/
def sSig1 (x : Nat) : Nat := Nat.xor (Nat.xor (rotr32 17 x) (rotr32 19 x)) (x / 2 ^ 10)

/-- The SHA-256 round constants. -/
def sha256K : List Nat :=
  [1116352408, 1899447441, 3049323471, 3921009573, 961987163,
   1508970993, 2453635748, 2870763221, 3624381080, 310598401,
   607225278, 1426881987, 1925078388, 2162078206, 2614888103,
   3248222580, 3835390401, 4022224774, 264347078, 604807628,
   770255983, 1249150122, 1555081692, 1996064986, 2554220882,
   2821834349, 2952996808, 3210313671, 3336571891, 3584528711,
   113926993, 338241895, 666307205, 773529912, 1294757372,
   1396182291, 1695183700, 1986661051, 2177026350, 2456956037,
   2730485921, 2820302411, 3259730800, 3345764771, 3516065817,
   3600352804, 4094571909, 275423344, 430227734, 506948616,
   659060556, 883997877, 958139571, 1322822218, 1537002063,
   1747873779, 1955562222, 2024104815, 2227730452, 2361852424,
   2428436474, 2756734187, 3204031479, 3329325298]

/-- The SHA-256 initial hash state. -/
def sha256H0 : List Nat :=
  [1779033703, 3144134277, 1013904242, 2773480762,
   1359893119, 2600822924, 528734635, 1541459225]

/-- Big-endian byte rendering of a number in `k` bytes. -/
def bytesBE (k n : Nat) : List Nat :=
  (List.range k).reverse.map fun i => n / 2 ^ (8 * i) % 256

/-- SHA-256 message padding. -/
def sha256Pad (msg : List Nat) : List Nat :=
  let len := msg.length
  let padZeros := (119 - len % 64) % 64
  msg ++ 128 :: List.replicate padZeros 0 ++ bytesBE 8 (len * 8)

/-- Packs bytes into big-endian 32-bit words. -/
def bytesToWords : List Nat → List Nat
  | b0 :: b1 :: b2 :: b3 :: rest =>
    (b0 * 16777216 + b1 * 65536 + b2 * 256 + b3) :: bytesToWords rest
  | _ => []

/-- One message-schedule extension step (appends word `w.length`). -/
def scheduleStep (w : List Nat) : List Nat :=
  w ++ [u32of (sSig1 (w.getD (w.length - 2) 0) + w.getD (w.length - 7) 0 +
        sSig0 (w.getD (w.length - 15) 0) + w.getD (w.length - 16) 0)]

/-- Extends 16 schedule words to 64. -/
def extendSchedule (w : List Nat) : List Nat :=
  (List.range 48).foldl (fun w _ => scheduleStep w) w

/-- One SHA-256 compression round. -/
def sha256Round (st : List Nat) (kw : Nat × Nat) : List Nat :=
  match st with
  | [a, b, c, d, e, f, g, h] =>
    let t1 := u32of (h + bSig1 e + sha256Ch e f g + kw.1 + kw.2)
    let t2 := u32of (bSig0 a + sha256Maj a b c)
    [u32of (t1 + t2), a, b, c, u32of (d + t1), e, f, g]
  | _ => st

/-- Compression of one 64-byte block into the running hash state. -/
def sha256Compress (h : List Nat) (block : List Nat) : List Nat :=
  let w := extendSchedule (bytesToWords block)
  let st := (sha256K.zip w).foldl sha256Round h
  (h.zip st).map fun p => u32of (p.1 + p.2)

/-- Splits a byte list into 64-byte blocks. -/
def chunk64 (l : List Nat) : List (List Nat) :=
  if h : l = [] then [] else l.take 64 :: chunk64 (l.drop 64)
termination_by l.length
decreasing_by
  simp only [List.length_drop]
  cases l with
  | nil => exact absurd rfl h
  | cons a l => simp; omega

/-- The SHA-256 digest (32 bytes) of a byte message. -/
def sha256Bytes (msg : List Nat) : List Nat :=
  ((chunk64 (sha256Pad msg)).foldl sha256Compress sha256H0).flatMap (bytesBE 4)

/-- Lowercase-hex rendering of bytes (`format!("{digest:x}")`). -/
def toHexChars (bytes : List Nat) : Str :=
  bytes.flatMap fun b => [hexDigitChar (b / 16), hexDigitChar (b % 16)]

/-- UTF-8 encoding of one character. -/
def utf8EncodeChar (c : Char) : List Nat :=
  let n := c.toNat
  if n < 128 then [n]
  else if n < 2048 then [192 + n / 64, 128 + n % 64]
  else if n < 65536 then [224 + n / 4096, 128 + n / 64 % 64, 128 + n % 64]
  else [240 + n / 262144, 128 + n / 4096 % 64, 128 + n / 64 % 64, 128 + n % 64]

/-- UTF-8 encoding of a string (`str::as_bytes`). -/
def utf8Bytes (s : Str) : List Nat := (s.map utf8EncodeChar).flatten

/-- Embedding of `sha256_hex`. -/
def sha256_hex (content : List Nat) : Str := toHexChars (sha256Bytes content)

/-- Embedding of `transport_fingerprint`. -/
def transport_fingerprint (transport endpoint_or_command : Str)
    (headers : List (Str × Str)) (protocol_version : Str) : Str :=
  sha256_hex (utf8Bytes
    (fingerprintPayload transport endpoint_or_command headers protocol_version))

/-! ## connect.rs: protocol inference

`infer_protocol` first runs `Url::parse` (the WHATWG parser of the `url`
crate, an external dependency); the embedding takes the parsed URL as
input: its (lowercased) scheme, its path segments when the URL is not
cannot-be-a-base, and its query string. -/

/-- `ConnectProtocol` from connect.rs. -/
inductive ConnectProtocol where
  | Ws
  | Grpc
  | Sse
  | StreamableHttp
deriving DecidableEq

/-- The observable parts of a parsed `Url` that `infer_protocol` consults
(plus the query string, which it must ignore). -/
structure ParsedUrl where
  scheme : Str
  pathSegments : Option (List Str)
  query : Option Str

/-- Embedding of `infer_protocol` on a parsed URL. -/
def infer_protocol (url : ParsedUrl) : Except Str ConnectProtocol :=
  if url.scheme = chars "ws" ∨ url.scheme = chars "wss" then
    .ok ConnectProtocol.Ws
  else if url.scheme = chars "grpc" ∨ url.scheme = chars "grpcs" then
    .ok ConnectProtocol.Grpc
  else if url.scheme = chars "http" ∨ url.scheme = chars "https" then
    let hasSseSegment :=
      (url.pathSegments.map fun segs =>
        segs.any fun seg => eqIgnoreAsciiCase seg (chars "sse")).getD false
    if hasSseSegment then .ok ConnectProtocol.Sse
    else .ok ConnectProtocol.StreamableHttp
  else
    .error (chars "Unsupported endpoint scheme '" ++ url.scheme ++
      chars "'. Use ws://, wss://, http://, https://, grpc://, or grpcs://")

/-! ## tool_api/schema.rs and tool_api/client.rs -/

/-- `ToolCallError` from tool_api/error.rs. -/
inductive ToolCallError where
  | InvalidEndpoint (msg : Str)
  | InvalidArguments (msg : Str)
  | MissingRequired (tool path key : Str)
  | ToolNotFound (name : Str)
  | AuthorizationRequired (status : Nat) (hint : Str)
  | Protocol (msg : Str)
  | Transport (msg : Str)

/-- Embedding of `is_object_schema`. -/
def isObjectSchema (schema : Json) : Bool :=
  match schema with
  | Json.obj fields =>
    match getField fields (chars "type") with
    | some (Json.str t) => if t = chars "object" then true else false
    | some _ => false
    | none =>
      containsKey fields (chars "properties") || containsKey fields (chars "required")
  | _ => false

/-- Modifies the value of the first field with the given key, if present
(`serde_json::Map::get_mut` followed by in-place mutation). -/
def modifyValue (kvs : List (Str × Json)) (key : Str) (f : Json → Json) :
    List (Str × Json) :=
  match kvs with
  | [] => []
  | (k, v) :: rest =>
    if k = key then (k, f v) :: rest else (k, v) :: modifyValue rest key f

mutual
/-- Embedding of `apply_defaults_object`. -/
def applyDefaultsObject (schema : Json) (args : List (Str × Json)) :
    List (Str × Json) :=
  match schema with
  | Json.obj fields =>
    match hp : getField fields (chars "properties") with
    | some (Json.obj props) => applyDefaultsProps props args
    | _ => args
  | _ => args
termination_by (sizeOf schema, 0)
decreasing_by
  have hlt : ∀ (fs : List (Str × Json)) (k : Str) (v : Json),
      getField fs k = some v → sizeOf v < sizeOf fs := by
    intro fs
    induction fs with
    | nil => intro k v h; simp [getField] at h
    | cons p rest ih =>
      intro k v h
      obtain ⟨k1, v1⟩ := p
      simp only [getField] at h
      split at h
      · cases h; simp; omega
      · have := ih k v h; simp; omega
  have := hlt fields (chars "properties") (Json.obj props) hp
  simp at this ⊢
  apply Prod.Lex.left
  omega

/-- The `for (key, property_schema) in properties` loop of
`apply_defaults_object`: inserts the property's `default` when the key is
absent, then recurses (via `defaultResolved`) into the (now-)present value
when both the property schema and the value are objects. -/
def applyDefaultsProps (props : List (Str × Json)) (args : List (Str × Json)) :
    List (Str × Json) :=
  match props with
  | [] => args
  | (key, ps) :: rest =>
    let args1 :=
      if containsKey args key then args
      else
        match ps.get (chars "default") with
        | some d => args ++ [(key, d)]
        | none => args
    let args2 := modifyValue args1 key (defaultResolved ps)
    applyDefaultsProps rest args2
termination_by (sizeOf props, 2)
decreasing_by
  all_goals apply Prod.Lex.left
  all_goals simp
  all_goals omega

/-- The in-place mutation `apply_defaults_object` performs on the value of
one property: recurse when both the property schema and the value are
objects, otherwise leave the value unchanged. -/
def defaultResolved (ps v : Json) : Json :=
  if isObjectSchema ps then
    match v with
    | Json.obj kvs => Json.obj (applyDefaultsObject ps kvs)
    | _ => v
  else v
termination_by (sizeOf ps, 1)
decreasing_by
  apply Prod.Lex.right
  omega
end

/-- Embedding of `apply_defaults`. -/
def apply_defaults (schema : Json) (args : Json) : Json :=
  if !isObjectSchema schema then args
  else
    match args with
    | Json.obj kvs => Json.obj (applyDefaultsObject schema kvs)
    | _ => args

/-- The keys of the schema's `required` array (non-strings skipped). -/
def requiredKeys (fields : List (Str × Json)) : List Str :=
  match getField fields (chars "required") with
  | some (Json.arr items) => items.filterMap Json.asStr
  | _ => []

/-- The first `required` key not present in the argument object. -/
def firstMissing (required : List Str) (args : List (Str × Json)) : Option Str :=
  required.find? fun key => !containsKey args key

mutual
/-- Embedding of `validate_required_object`. -/
def validateRequiredObject (tool_name : Str) (schema : Json)
    (args : List (Str × Json)) (path : Str) : Except ToolCallError Unit :=
  match schema with
  | Json.obj fields =>
    match firstMissing (requiredKeys fields) args with
    | some key => .error (ToolCallError.MissingRequired tool_name path key)
    | none =>
      match hp : getField fields (chars "properties") with
      | some (Json.obj props) => validateRequiredProps tool_name props args path
      | _ => .ok ()
  | _ => .ok ()
termination_by sizeOf schema
decreasing_by
  have hlt : ∀ (fs : List (Str × Json)) (k : Str) (v : Json),
      getField fs k = some v → sizeOf v < sizeOf fs := by
    intro fs
    induction fs with
    | nil => intro k v h; simp [getField] at h
    | cons p rest ih =>
      intro k v h
      obtain ⟨k1, v1⟩ := p
      simp only [getField] at h
      split at h
      · cases h; simp; omega
      · have := ih k v h; simp; omega
  have := hlt fields (chars "properties") (Json.obj props) hp
  simp at this ⊢
  omega

/-- The `for (key, property_schema) in properties` loop of
`validate_required_object`: recurses into object-schema properties whose
argument value is an object, short-circuiting on the first error. -/
def validateRequiredProps (tool_name : Str) (props : List (Str × Json))
    (args : List (Str × Json)) (path : Str) : Except ToolCallError Unit :=
  match props with
  | [] => .ok ()
  | (key, ps) :: rest =>
    let sub : Except ToolCallError Unit :=
      if isObjectSchema ps then
        match getField args key with
        | some (Json.obj valueObj) =>
          validateRequiredObject tool_name ps valueObj (path ++ '.' :: key)
        | _ => .ok ()
      else .ok ()
    match sub with
    | .error e => .error e
    | .ok _ => validateRequiredProps tool_name rest args path
termination_by sizeOf props
decreasing_by
  all_goals simp
  all_goals omega
end

/-- Embedding of `validate_required`. -/
def validate_required (tool_name : Str) (schema : Json) (args : Json) :
    Except ToolCallError Unit :=
  if !isObjectSchema schema then .ok ()
  else
    match args with
    | Json.obj argsObj => validateRequiredObject tool_name schema argsObj (chars "$")
    | _ =>
      .error (ToolCallError.InvalidArguments
        (chars "Tool '" ++ tool_name ++ chars "' expects JSON object arguments"))

mutual
/-- Specification-side collector: all `(path, key)` pairs at which a
`required` key is missing, in the traversal order of the validator. -/
def requiredViolations (schema : Json) (args : List (Str × Json)) (path : Str) :
    List (Str × Str) :=
  match schema with
  | Json.obj fields =>
    ((requiredKeys fields).filter fun key => !containsKey args key).map
        (fun key => (path, key)) ++
      match hp : getField fields (chars "properties") with
      | some (Json.obj props) => requiredViolationsProps props args path
      | _ => []
  | _ => []
termination_by sizeOf schema
decreasing_by
  have hlt : ∀ (fs : List (Str × Json)) (k : Str) (v : Json),
      getField fs k = some v → sizeOf v < sizeOf fs := by
    intro fs
    induction fs with
    | nil => intro k v h; simp [getField] at h
    | cons p rest ih =>
      intro k v h
      obtain ⟨k1, v1⟩ := p
      simp only [getField] at h
      split at h
      · cases h; simp; omega
      · have := ih k v h; simp; omega
  have := hlt fields (chars "properties") (Json.obj props) hp
  simp at this ⊢
  omega

/-- Per-property part of `requiredViolations`. -/
def requiredViolationsProps (props : List (Str × Json))
    (args : List (Str × Json)) (path : Str) : List (Str × Str) :=
  match props with
  | [] => []
  | (key, ps) :: rest =>
    (if isObjectSchema ps then
      match getField args key with
      | some (Json.obj valueObj) => requiredViolations ps valueObj (path ++ '.' :: key)
      | _ => []
    else []) ++ requiredViolationsProps rest args path
termination_by sizeOf props
decreasing_by
  all_goals simp
  all_goals omega
end

/-- `ToolMetadata` from tool_api/client.rs (the fields used by
`normalize_args_for_tool`). -/
structure ToolMetadata where
  name : Str
  input_schema : Json

/-- Embedding of `normalize_args_for_tool`. -/
def normalize_args_for_tool (metadata : ToolMetadata) (args : Json) :
    Except ToolCallError Json :=
  if !args.isObj then
    .error (ToolCallError.InvalidArguments
      (chars "Tool '" ++ metadata.name ++ chars "' expects JSON object arguments"))
  else
    let args1 := apply_defaults metadata.input_schema args
    match validate_required metadata.name metadata.input_schema args1 with
    | .error e => .error e
    | .ok _ => .ok args1

/-! # Theorems -/

/-! ## Reliability: circuit breaker and backoff (C2, C3, C10) -/

/-- The policy is preserved by any number of `record_failure` calls. -/
theorem recordFailures_policy (pol : CircuitBreakerPolicy) (now : Nat) :
    ∀ n, (recordFailures now (CircuitBreaker.new pol) n).policy = pol := by
  intro n
  induction n with
  | zero => rfl
  | succ m ih =>
    simp only [recordFailures, CircuitBreaker.record_failure]
    split <;> simp [ih]

/-- Below the threshold, consecutive failures count up from a fresh
breaker and the breaker stays closed. -/
theorem recordFailures_closed_inv (pol : CircuitBreakerPolicy) (now : Nat)
    (hT32 : pol.failure_threshold ≤ u32Max) :
    ∀ i, i < pol.failure_threshold →
      (recordFailures now (CircuitBreaker.new pol) i).consecutive_failures = i ∧
      (recordFailures now (CircuitBreaker.new pol) i).open_until = none := by
  intro i
  induction i with
  | zero => intro _; exact ⟨rfl, rfl⟩
  | succ n ih =>
    intro hlt
    obtain ⟨hcf, hou⟩ := ih (by omega)
    have hpol := recordFailures_policy pol now n
    have hm : min (n + 1) u32Max = n + 1 := by omega
    simp only [recordFailures, CircuitBreaker.record_failure, hcf, hpol, hm]
    rw [if_pos (Or.inr (by omega))]
    exact ⟨rfl, hou⟩

/-- C2: with threshold `T > 0`, starting from a fresh breaker,
`record_failure` returns `none` on each of the first `T - 1` calls and
`Some cooldown` on the `T`-th, which opens the breaker until
`now + cooldown`; one `record_success` closes the breaker and zeroes the
counter; with `T = 0` `record_failure` never opens the breaker. -/
theorem C2_circuit_breaker_threshold (pol : CircuitBreakerPolicy) (now : Nat)
    (hT32 : pol.failure_threshold ≤ u32Max) :
    (0 < pol.failure_threshold →
      (∀ i, i + 1 < pol.failure_threshold →
        (CircuitBreaker.record_failure now
          (recordFailures now (CircuitBreaker.new pol) i)).1 = none) ∧
      (CircuitBreaker.record_failure now
        (recordFailures now (CircuitBreaker.new pol)
          (pol.failure_threshold - 1))).1 = some pol.cooldown ∧
      (CircuitBreaker.record_failure now
        (recordFailures now (CircuitBreaker.new pol)
          (pol.failure_threshold - 1))).2.open_until = some (now + pol.cooldown)) ∧
    (∀ cb : CircuitBreaker, cb.record_success.consecutive_failures = 0 ∧
      cb.record_success.open_until = none) ∧
    (pol.failure_threshold = 0 →
      ∀ n, (CircuitBreaker.record_failure now
          (recordFailures now (CircuitBreaker.new pol) n)).1 = none ∧
        (recordFailures now (CircuitBreaker.new pol) n).open_until = none) := by
  refine ⟨?_, fun cb => ⟨rfl, rfl⟩, ?_⟩
  · intro hT
    refine ⟨?_, ?_, ?_⟩
    · intro i hi
      obtain ⟨hcf, _⟩ := recordFailures_closed_inv pol now hT32 i (by omega)
      have hpol := recordFailures_policy pol now i
      have hm : min (i + 1) u32Max = i + 1 := by omega
      simp only [CircuitBreaker.record_failure, hcf, hpol, hm]
      rw [if_pos (Or.inr (by omega))]
    · obtain ⟨hcf, _⟩ :=
        recordFailures_closed_inv pol now hT32 (pol.failure_threshold - 1) (by omega)
      have hpol := recordFailures_policy pol now (pol.failure_threshold - 1)
      have hm : min (pol.failure_threshold - 1 + 1) u32Max = pol.failure_threshold := by
        omega
      simp only [CircuitBreaker.record_failure, hcf, hpol, hm]
      rw [if_neg (by omega)]
    · obtain ⟨hcf, _⟩ :=
        recordFailures_closed_inv pol now hT32 (pol.failure_threshold - 1) (by omega)
      have hpol := recordFailures_policy pol now (pol.failure_threshold - 1)
      have hm : min (pol.failure_threshold - 1 + 1) u32Max = pol.failure_threshold := by
        omega
      simp only [CircuitBreaker.record_failure, hcf, hpol, hm]
      rw [if_neg (by omega)]
  · intro hT0 n
    have hpol := recordFailures_policy pol now n
    constructor
    · simp only [CircuitBreaker.record_failure, hpol]
      rw [if_pos (Or.inl hT0)]
    · induction n with
      | zero => rfl
      | succ m ih =>
        have hpolm := recordFailures_policy pol now m
        simp only [recordFailures, CircuitBreaker.record_failure, hpolm]
        rw [if_pos (Or.inl hT0)]
        exact ih (recordFailures_policy pol now m)

/-- Witness for C2 at threshold 2, cooldown 50: the first failure returns
`none`, the second opens the breaker for 50. -/
theorem C2_circuit_breaker_threshold_witness :
    (CircuitBreaker.record_failure 0
      (recordFailures 0 (CircuitBreaker.new ⟨2, 50⟩) 0)).1 = none ∧
    (CircuitBreaker.record_failure 0
      (recordFailures 0 (CircuitBreaker.new ⟨2, 50⟩) 1)).1 = some 50 := by
  have h := C2_circuit_breaker_threshold ⟨2, 50⟩ 0 (by decide)
  exact ⟨(h.1 (by decide)).1 0 (by decide), (h.1 (by decide)).2.1⟩

/-- C3: `backoff_delay k = min (base_delay * 2 ^ min k 16) max_delay`, and
the schedule is monotone and capped by `max_delay`. -/
theorem C3_backoff_delay_schedule (p : RetryPolicy) (k : Nat)
    (hmax : p.max_delay ≤ durationMax) :
    p.backoff_delay k = min (p.base_delay * 2 ^ min k 16) p.max_delay ∧
    p.backoff_delay k ≤ p.backoff_delay (k + 1) ∧
    p.backoff_delay k ≤ p.max_delay := by
  have hf : ∀ j, p.backoff_delay j = min (p.base_delay * 2 ^ min j 16) p.max_delay := by
    intro j
    by_cases h0 : p.base_delay = 0
    · simp [RetryPolicy.backoff_delay, h0]
    · by_cases ho : p.base_delay * 2 ^ min j 16 ≤ durationMax
      · simp [RetryPolicy.backoff_delay, durationCheckedMul, h0, ho]
      · simp only [RetryPolicy.backoff_delay, durationCheckedMul, if_neg h0, if_neg ho,
          Option.getD_none, Nat.min_self]
        rw [Nat.min_eq_right]
        exact le_trans hmax (Nat.le_of_lt (Nat.lt_of_not_le ho))
  refine ⟨hf k, ?_, ?_⟩
  · rw [hf k, hf (k + 1)]
    refine min_le_min ?_ (le_refl _)
    exact Nat.mul_le_mul (Nat.le_refl _)
      (Nat.pow_le_pow_right (by norm_num) (by omega))
  · rw [hf k]
    exact Nat.min_le_right _ _

/-- Witness for C3 at the policy (5 retries, base 100, max 350) and k = 2:
the delay caps at `max_delay`. -/
theorem C3_backoff_delay_schedule_witness :
    (⟨5, 100, 350⟩ : RetryPolicy).backoff_delay 2 =
      min (100 * 2 ^ min 2 16) 350 ∧
    (⟨5, 100, 350⟩ : RetryPolicy).backoff_delay 2 ≤ 350 := by
  have h := C3_backoff_delay_schedule ⟨5, 100, 350⟩ 2 (by decide)
  exact ⟨h.1, h.2.2⟩

/-- C10 counterexample: one failure below the threshold leaves a closed
breaker with a nonzero consecutive-failure count, and `wait_if_open` on
that state does not reset the counter, so the breaker is not in the fully
closed state (`consecutive_failures = 0`) the claim asserts. -/
theorem C10_counterexample :
    (CircuitBreaker.record_failure 0
      (CircuitBreaker.new ⟨3, 50⟩)).2.wait_if_open.consecutive_failures = 1 ∧
    ¬ (CircuitBreaker.record_failure 0
      (CircuitBreaker.new ⟨3, 50⟩)).2.wait_if_open.consecutive_failures = 0 := by
  exact ⟨by decide, by decide⟩

/-- C10 amended: after `wait_if_open` the breaker is never open; when it
was open on entry the consecutive-failure counter is also reset to 0 (so
waiting out the cooldown alone re-arms the full threshold); when it was
not open the state is unchanged (a nonzero counter survives). -/
theorem C10_wait_if_open_state (cb : CircuitBreaker) :
    cb.wait_if_open.open_until = none ∧
    (cb.open_until.isSome = true → cb.wait_if_open.consecutive_failures = 0) ∧
    (cb.open_until = none → cb.wait_if_open = cb) := by
  unfold CircuitBreaker.wait_if_open
  cases h : cb.open_until with
  | none => exact ⟨h, by simp [h], fun _ => rfl⟩
  | some t => exact ⟨rfl, fun _ => rfl, by simp [h]⟩

/-- Witness for C10: an open breaker is fully reset by `wait_if_open`; a
closed one is untouched. -/
theorem C10_wait_if_open_state_witness :
    (⟨⟨1, 5⟩, 0, some 7⟩ : CircuitBreaker).wait_if_open.consecutive_failures = 0 ∧
    (⟨⟨1, 5⟩, 4, none⟩ : CircuitBreaker).wait_if_open = ⟨⟨1, 5⟩, 4, none⟩ :=
  ⟨(C10_wait_if_open_state _).2.1 (by decide), (C10_wait_if_open_state _).2.2 rfl⟩

/-! ## Retry loop and gateway envelopes (C5, C1) -/

/-- `run_with_retry` invokes the operation at least once and at most
`remaining + 1` more times than the starting attempt index. -/
theorem runWithRetryGo_attempts (clock : Nat → Nat) (op : Nat → Except Str α) :
    ∀ remaining cb attempt,
      attempt + 1 ≤ (runWithRetryGo clock op remaining cb attempt).attempts ∧
      (runWithRetryGo clock op remaining cb attempt).attempts ≤
        attempt + remaining + 1 := by
  intro remaining
  induction remaining with
  | zero =>
    intro cb attempt
    unfold runWithRetryGo
    cases h : op attempt <;> simp [h]
  | succ r ih =>
    intro cb attempt
    unfold runWithRetryGo
    cases h : op attempt with
    | ok v => simp [h]
    | error e =>
      simp only [h]
      have := ih (CircuitBreaker.record_failure (clock attempt)
        (CircuitBreaker.wait_if_open cb)).2 (attempt + 1)
      constructor <;> omega

/-- When every attempt fails, the retry loop runs `remaining + 1` attempts
and returns the last error verbatim. -/
theorem runWithRetryGo_exhaust (clock : Nat → Nat) (op : Nat → Except Str α) :
    ∀ remaining cb attempt,
      (∀ i, attempt ≤ i → i ≤ attempt + remaining → (op i).isOk = false) →
      (runWithRetryGo clock op remaining cb attempt).attempts =
        attempt + remaining + 1 ∧
      ∃ s, op (attempt + remaining) = .error s ∧
        (runWithRetryGo clock op remaining cb attempt).result = .error s := by
  intro remaining
  induction remaining with
  | zero =>
    intro cb attempt hfail
    have h0 := hfail attempt (le_refl _) (by omega)
    unfold runWithRetryGo
    cases h : op attempt with
    | ok v => rw [h] at h0; simp [Except.isOk, Except.toBool] at h0
    | error e => exact ⟨by simp [h], e, by simpa using h, by simp [h]⟩
  | succ r ih =>
    intro cb attempt hfail
    have h0 := hfail attempt (le_refl _) (by omega)
    unfold runWithRetryGo
    cases h : op attempt with
    | ok v => rw [h] at h0; simp [Except.isOk, Except.toBool] at h0
    | error e =>
      simp only [h]
      have hrec := ih (CircuitBreaker.record_failure (clock attempt)
          (CircuitBreaker.wait_if_open cb)).2 (attempt + 1)
        (fun i hi1 hi2 => hfail i (by omega) (by omega))
      have harith : attempt + 1 + r = attempt + (r + 1) := by omega
      rw [harith] at hrec
      exact ⟨by omega, hrec.2⟩

/-- C5 counterexample: with `max_retries = 1`, a failing
`notifications/initialized` delivery performs 2 underlying send attempts,
not at most one: the notification is sent through `run_with_retry`. -/
theorem C5_counterexample :
    (send_initialized (chars "sse-initialized-notification") ⟨1, 0, 0⟩
      (fun _ => 0) (CircuitBreaker.new ⟨0, 0⟩)
      (fun _ => .error (chars "post failed"))).attempts = 2 ∧
    ¬ (send_initialized (chars "sse-initialized-notification") ⟨1, 0, 0⟩
      (fun _ => 0) (CircuitBreaker.new ⟨0, 0⟩)
      (fun _ => .error (chars "post failed"))).attempts ≤ 1 :=
  ⟨rfl, by decide⟩

/-- C5 amended: the initialized notification goes through the same retry
loop as requests: between 1 and `max_retries + 1` underlying send
attempts, with exactly `max_retries + 1` when every attempt fails. -/
theorem C5_initialized_notify_retries (label : Str) (pol : RetryPolicy)
    (clock : Nat → Nat) (cb : CircuitBreaker) (op : Nat → Except Str Unit) :
    1 ≤ (send_initialized label pol clock cb op).attempts ∧
    (send_initialized label pol clock cb op).attempts ≤ pol.max_retries + 1 ∧
    ((∀ i, (op i).isOk = false) →
      (send_initialized label pol clock cb op).attempts = pol.max_retries + 1) := by
  unfold send_initialized run_with_retry
  have h := runWithRetryGo_attempts clock op pol.max_retries cb 0
  refine ⟨by omega, by omega, fun hfail => ?_⟩
  have := (runWithRetryGo_exhaust clock op pol.max_retries cb 0
    (fun i _ _ => hfail i)).1
  omega

/-- Witness for C5: a policy with 2 retries and an always-failing
notification send performs exactly 3 attempts. -/
theorem C5_initialized_notify_retries_witness :
    (send_initialized (chars "x") ⟨2, 0, 0⟩ (fun _ => 0)
      (CircuitBreaker.new ⟨0, 0⟩) (fun _ => .error (chars "e"))).attempts =
      (⟨2, 0, 0⟩ : RetryPolicy).max_retries + 1 :=
  (C5_initialized_notify_retries (chars "x") ⟨2, 0, 0⟩ (fun _ => 0)
    (CircuitBreaker.new ⟨0, 0⟩) (fun _ => .error (chars "e"))).2.2 (fun _ => rfl)

/-- Field lookup in the envelope base built by `wrap_response`. -/
theorem getField_envelope_base (jr idv : Json) (tail : List (Str × Json)) :
    getField ((chars "jsonrpc", jr) :: (chars "id", idv) :: tail) (chars "id") =
      some idv ∧
    getField ((chars "jsonrpc", jr) :: (chars "id", idv) :: tail) (chars "jsonrpc") =
      some jr := by
  constructor
  · simp only [getField,
      if_neg (show ¬ chars "jsonrpc" = chars "id" from by decide)]
    simp
  · simp only [getField]
    simp

/-- `wrap_response` always emits an object whose `jsonrpc` and `id` fields
come from the inbound request (defaulting to `"2.0"` and `null`). -/
theorem wrap_response_envelope (req payload : Json) :
    (wrap_response req payload).get (chars "id") =
      some ((req.get (chars "id")).getD Json.null) ∧
    (wrap_response req payload).get (chars "jsonrpc") =
      some ((req.get (chars "jsonrpc")).getD (Json.str (chars "2.0"))) := by
  unfold wrap_response
  split
  · split
    · simp only [Json.get, List.cons_append, List.nil_append]
      exact ⟨(getField_envelope_base _ _ _).1, (getField_envelope_base _ _ _).2⟩
    · simp only [Json.get, List.cons_append, List.nil_append]
      exact ⟨(getField_envelope_base _ _ _).1, (getField_envelope_base _ _ _).2⟩
  · split
    · simp only [Json.get, List.cons_append, List.nil_append]
      exact ⟨(getField_envelope_base _ _ _).1, (getField_envelope_base _ _ _).2⟩
    · simp only [Json.get]
      exact ⟨(getField_envelope_base _ _ []).1, (getField_envelope_base _ _ []).2⟩

/-- The shared request-handling loop body always emits exactly one line,
and it is a `wrap_response` envelope for the inbound message. -/
theorem gatewayHandleRequest_one_envelope (reqLabel notifyLabel : Str)
    (pol : RetryPolicy) (clock : Nat → Nat) (st : GatewaySt) (message : Json)
    (ops : LineOps) :
    ∃ p, (gatewayHandleRequest reqLabel notifyLabel pol clock st message ops).1 =
      [wrap_response message p] := by
  unfold gatewayHandleRequest
  by_cases h1 : (!st.initialized && !is_initialize_request message) = true
  · simp only [h1, if_true]
    by_cases h2 : ((send_request reqLabel pol clock st.breaker ops.initOp).1.get
        (chars "error")).isSome = true
    · simp only [h2, if_true]
      exact ⟨_, rfl⟩
    · simp only [h2]
      simp only [Bool.false_eq_true, if_false]
      exact ⟨_, rfl⟩
  · simp only [h1]
    simp only [Bool.false_eq_true, if_false]
    exact ⟨_, rfl⟩

/-- On retry exhaustion `send_request` yields a `-32000` error payload
holding the last underlying error verbatim. -/
theorem send_request_exhaust (label : Str) (pol : RetryPolicy)
    (clock : Nat → Nat) (cb : CircuitBreaker) (op : Nat → Except Str Json)
    (e : Str) (hfail : ∀ i, (op i).isOk = false)
    (hlast : op pol.max_retries = .error e) :
    (send_request label pol clock cb op).1 = error_payload (-32000) e := by
  unfold send_request run_with_retry
  obtain ⟨-, s, hs, hres⟩ :=
    runWithRetryGo_exhaust clock op pol.max_retries cb 0 (fun i _ _ => hfail i)
  rw [Nat.zero_add, hlast] at hs
  cases hs
  simp only [hres]

/-- `wrap_response` of a `-32000` error payload carries code `-32000` and
the normalized underlying message. -/
theorem wrap_response_error_payload (req : Json) (e : Str) :
    (wrap_response req (error_payload (-32000) e)).get (chars "error") =
      some (Json.obj [(chars "code", Json.num (-32000)),
        (chars "message", Json.str (normalize_error_message (-32000) e))]) := rfl

/-- C1 amended: each decoded inbound request handled by the SSE→stdio or
Streamable-HTTP→stdio loop body yields exactly one response envelope, with
`jsonrpc` and `id` taken from the inbound request (defaulting to `"2.0"`
and `null`) even on the error path; when all retries are exhausted the
payload is a JSON-RPC error with code `-32000` whose message is the last
underlying error itself (normalized), not `"<operation>: <underlying>"`. -/
theorem C1_one_envelope_per_request :
    (∀ (pol : RetryPolicy) (clock : Nat → Nat) (st : GatewaySt) (message : Json)
        (endpointRes : Except Str Unit) (ops : LineOps),
      is_request message = true →
      ∃ e, (sseHandleLine pol clock st message endpointRes ops).1 = [e] ∧
        e.get (chars "id") = some ((message.get (chars "id")).getD Json.null) ∧
        e.get (chars "jsonrpc") =
          some ((message.get (chars "jsonrpc")).getD (Json.str (chars "2.0")))) ∧
    (∀ (pol : RetryPolicy) (clock : Nat → Nat) (st : GatewaySt) (message : Json)
        (ops : LineOps),
      is_request message = true →
      ∃ e, (streamableHandleLine pol clock st message ops).1 = [e] ∧
        e.get (chars "id") = some ((message.get (chars "id")).getD Json.null) ∧
        e.get (chars "jsonrpc") =
          some ((message.get (chars "jsonrpc")).getD (Json.str (chars "2.0")))) ∧
    (∀ (label : Str) (pol : RetryPolicy) (clock : Nat → Nat) (cb : CircuitBreaker)
        (op : Nat → Except Str Json) (e : Str),
      (∀ i, (op i).isOk = false) → op pol.max_retries = .error e →
      (send_request label pol clock cb op).1 = error_payload (-32000) e) ∧
    (∀ (req : Json) (e : Str),
      (wrap_response req (error_payload (-32000) e)).get (chars "error") =
        some (Json.obj [(chars "code", Json.num (-32000)),
          (chars "message", Json.str (normalize_error_message (-32000) e))])) := by
  refine ⟨?_, ?_, send_request_exhaust, wrap_response_error_payload⟩
  · intro pol clock st message endpointRes ops h
    unfold sseHandleLine
    simp only [h, Bool.not_true, Bool.false_eq_true, if_false]
    cases endpointRes with
    | error err =>
      exact ⟨_, rfl, (wrap_response_envelope _ _).1, (wrap_response_envelope _ _).2⟩
    | ok u =>
      obtain ⟨p, hp⟩ := gatewayHandleRequest_one_envelope (chars "sse-request")
        (chars "sse-initialized-notification") pol clock st message ops
      exact ⟨_, hp, (wrap_response_envelope _ _).1, (wrap_response_envelope _ _).2⟩
  · intro pol clock st message ops h
    unfold streamableHandleLine
    simp only [h, Bool.not_true, Bool.false_eq_true, if_false]
    obtain ⟨p, hp⟩ := gatewayHandleRequest_one_envelope (chars "streamable-http-request")
      (chars "streamable-http-initialized-notification") pol clock st message ops
    exact ⟨_, hp, (wrap_response_envelope _ _).1, (wrap_response_envelope _ _).2⟩

/-- Witness for C1: a concrete `tools/list` request produces exactly one
envelope, and an always-failing operation surfaces its final error
unprefixed in the `-32000` payload. -/
theorem C1_one_envelope_per_request_witness :
    (sseHandleLine ⟨0, 0, 0⟩ (fun _ => 0) ⟨true, CircuitBreaker.new ⟨0, 0⟩⟩
      (Json.obj [(chars "jsonrpc", Json.str (chars "2.0")),
        (chars "id", Json.num 1),
        (chars "method", Json.str (chars "tools/list"))])
      (.ok ())
      ⟨fun _ => .ok Json.null, fun _ => .ok (),
       fun _ => .error (chars "boom"), fun _ => .ok ()⟩).1.length = 1 ∧
    (send_request (chars "sse-request") ⟨0, 0, 0⟩ (fun _ => 0)
      (CircuitBreaker.new ⟨0, 0⟩) (fun _ => .error (chars "boom"))).1 =
      error_payload (-32000) (chars "boom") := by
  constructor
  · obtain ⟨e, he, -, -⟩ := C1_one_envelope_per_request.1 ⟨0, 0, 0⟩ (fun _ => 0)
      ⟨true, CircuitBreaker.new ⟨0, 0⟩⟩
      (Json.obj [(chars "jsonrpc", Json.str (chars "2.0")),
        (chars "id", Json.num 1),
        (chars "method", Json.str (chars "tools/list"))])
      (.ok ())
      ⟨fun _ => .ok Json.null, fun _ => .ok (),
       fun _ => .error (chars "boom"), fun _ => .ok ()⟩ (by decide)
    rw [he]
    rfl
  · exact C1_one_envelope_per_request.2.2.1 (chars "sse-request") ⟨0, 0, 0⟩
      (fun _ => 0) (CircuitBreaker.new ⟨0, 0⟩) (fun _ => .error (chars "boom"))
      (chars "boom") (fun _ => rfl) rfl

/-- C1 counterexample: on retry exhaustion the emitted error message is
the underlying error `"boom"` verbatim, not the claimed
`"<operation>: <underlying>"` form `"sse-request: boom"`. -/
theorem C1_counterexample :
    (sseHandleLine ⟨0, 0, 0⟩ (fun _ => 0) ⟨true, CircuitBreaker.new ⟨0, 0⟩⟩
      (Json.obj [(chars "jsonrpc", Json.str (chars "2.0")),
        (chars "id", Json.num 1),
        (chars "method", Json.str (chars "tools/list"))])
      (.ok ())
      ⟨fun _ => .ok Json.null, fun _ => .ok (),
       fun _ => .error (chars "boom"), fun _ => .ok ()⟩).1 =
      [Json.obj [(chars "jsonrpc", Json.str (chars "2.0")),
        (chars "id", Json.num 1),
        (chars "error", Json.obj [(chars "code", Json.num (-32000)),
          (chars "message", Json.str (chars "boom"))])]] ∧
    chars "boom" ≠ chars "sse-request: boom" :=
  ⟨rfl, by decide⟩

/-! ## Decimal round-trip and id prefixing (C4) -/

/-- The fuel argument of `natDigitsRevFuel` is irrelevant once sufficient. -/
theorem natDigitsRevFuel_congr :
    ∀ f1 f2 n, n ≤ f1 → n ≤ f2 → natDigitsRevFuel f1 n = natDigitsRevFuel f2 n := by
  intro f1
  induction f1 with
  | zero =>
    intro f2 n h1 _
    have hn : n = 0 := by omega
    subst hn
    cases f2 <;> rfl
  | succ f ih =>
    intro f2 n h1 h2
    cases n with
    | zero => cases f2 <;> rfl
    | succ m =>
      cases f2 with
      | zero => omega
      | succ g =>
        simp only [natDigitsRevFuel]
        have hdiv : (m + 1) / 10 < m + 1 := Nat.div_lt_self (Nat.succ_pos m) (by norm_num)
        exact congrArg _ (ih g ((m + 1) / 10) (by omega) (by omega))

/-- Unfolding equation for `natDigitsRev` on positive numbers. -/
theorem natDigitsRev_succ (n : Nat) (h : 0 < n) :
    natDigitsRev n = n % 10 :: natDigitsRev (n / 10) := by
  cases n with
  | zero => omega
  | succ m =>
    show natDigitsRevFuel (m + 1) (m + 1) = _
    simp only [natDigitsRevFuel]
    have hdiv : (m + 1) / 10 < m + 1 := Nat.div_lt_self (Nat.succ_pos m) (by norm_num)
    exact congrArg _ (natDigitsRevFuel_congr m ((m + 1) / 10) ((m + 1) / 10)
      (by omega) (le_refl _))

/-- All decimal digits are below 10. -/
theorem natDigitsRev_lt_ten : ∀ n, ∀ d ∈ natDigitsRev n, d < 10 := by
  intro n
  induction n using Nat.strong_induction_on with
  | _ n ih =>
    intro d hd
    by_cases h0 : n = 0
    · subst h0; simp [natDigitsRev, natDigitsRevFuel] at hd
    · rw [natDigitsRev_succ n (by omega)] at hd
      rcases List.mem_cons.mp hd with h | h
      · subst h; exact Nat.mod_lt _ (by norm_num)
      · exact ih (n / 10) (Nat.div_lt_self (by omega) (by norm_num)) d h

/-- The digit list of `n` evaluates back to `n`. -/
theorem ofDigitsLE_natDigitsRev : ∀ n, ofDigitsLE (natDigitsRev n) = n := by
  intro n
  induction n using Nat.strong_induction_on with
  | _ n ih =>
    by_cases h0 : n = 0
    · subst h0; rfl
    · rw [natDigitsRev_succ n (by omega)]
      simp only [ofDigitsLE]
      rw [ih (n / 10) (Nat.div_lt_self (by omega) (by norm_num))]
      omega

/-- Parsing the character of a digit value below 10 recovers the value. -/
theorem charDigit_digitChar (d : Nat) (h : d < 10) :
    charDigit (digitChar d) = some d := by
  interval_cases d <;> rfl

/-- Digit characters are not sign characters. -/
theorem digitChar_ne_sign (d : Nat) (h : d < 10) :
    ¬ digitChar d = '-' ∧ ¬ digitChar d = '+' := by
  interval_cases d <;> exact ⟨by decide, by decide⟩

/-- Folding the parser over a rendered digit list accumulates its value. -/
theorem parseFold (l : List Nat) (hl : ∀ d ∈ l, d < 10) (a : Nat) :
    List.foldl (fun acc c => acc.bind fun x => (charDigit c).map fun d => x * 10 + d)
      (some a) (l.reverse.map digitChar) =
      some (a * 10 ^ l.length + ofDigitsLE l) := by
  induction l generalizing a with
  | nil => simp [ofDigitsLE]
  | cons d t ih =>
    have hd : d < 10 := hl d (by simp)
    have ht : ∀ x ∈ t, x < 10 := fun x hx => hl x (by simp [hx])
    simp only [List.reverse_cons, List.map_append, List.map_cons, List.map_nil,
      List.foldl_append, List.foldl_cons, List.foldl_nil]
    rw [ih ht a]
    simp only [Option.some_bind, charDigit_digitChar d hd, Option.map]
    congr 1
    simp only [ofDigitsLE, List.length_cons, pow_succ]
    ring

/-- `parseDecDigits` inverts `natDecChars`. -/
theorem parseDecDigits_natDec (n : Nat) : parseDecDigits (natDecChars n) = some n := by
  by_cases h : n = 0
  · subst h; rfl
  · unfold natDecChars parseDecDigits
    rw [if_neg h, parseFold (natDigitsRev n) (natDigitsRev_lt_ten n) 0,
      ofDigitsLE_natDigitsRev]
    simp

/-- The decimal rendering is never empty. -/
theorem natDecChars_ne_nil (n : Nat) : natDecChars n ≠ [] := by
  by_cases h : n = 0
  · subst h; decide
  · unfold natDecChars
    rw [if_neg h, natDigitsRev_succ n (by omega)]
    simp

/-- The decimal rendering starts with a digit character. -/
theorem natDecChars_head (n : Nat) :
    ∃ d rest, d < 10 ∧ natDecChars n = digitChar d :: rest := by
  by_cases h : n = 0
  · exact ⟨0, [], by norm_num, by subst h; decide⟩
  · have hne : natDigitsRev n ≠ [] := by
      rw [natDigitsRev_succ n (by omega)]; simp
    have hrev : (natDigitsRev n).reverse ≠ [] := by
      simpa using hne
    obtain ⟨d, t, hdt⟩ := List.exists_cons_of_ne_nil hrev
    have hdmem : d ∈ natDigitsRev n := by
      have : d ∈ (natDigitsRev n).reverse := by rw [hdt]; simp
      simpa using this
    refine ⟨d, t.map digitChar, natDigitsRev_lt_ten n d hdmem, ?_⟩
    unfold natDecChars
    rw [if_neg h, hdt]
    simp

/-- Unfolding of `parseI64` on a `-`-signed string. -/
theorem parseI64_neg_eq (rest : Str) :
    parseI64 ('-' :: rest) =
      (if rest = [] then none
       else (parseDecDigits rest).bind fun n =>
         if -(2 ^ 63) ≤ (-1 : Int) * (n : Int) ∧ (-1 : Int) * (n : Int) < 2 ^ 63
         then some ((-1 : Int) * (n : Int)) else none) := by
  simp only [parseI64]
  norm_num

/-- Value of `parseI64` on an unsigned string whose digits parse to `m`. -/
theorem parseI64_nosign_val (c : Char) (rest : Str) (hm : ¬ c = '-')
    (hp : ¬ c = '+') (m : Nat) (hparse : parseDecDigits (c :: rest) = some m) :
    parseI64 (c :: rest) =
      (if -(2 ^ 63) ≤ (1 : Int) * (m : Int) ∧ (1 : Int) * (m : Int) < 2 ^ 63
       then some ((1 : Int) * (m : Int)) else none) := by
  simp only [parseI64, if_neg hm, if_neg hp, hparse]
  simp

/-- `parse::<i64>` inverts Rust's decimal rendering on the `i64` range. -/
theorem parseI64_roundtrip (n : Int) (h1 : -(2 ^ 63) ≤ n) (h2 : n < 2 ^ 63) :
    parseI64 (intToDecChars n) = some n := by
  by_cases hneg : n < 0
  · unfold intToDecChars
    rw [if_pos hneg, parseI64_neg_eq, if_neg (natDecChars_ne_nil _),
      parseDecDigits_natDec]
    simp only [Option.some_bind]
    have hv : (-1 : Int) * ((n.natAbs : Nat) : Int) = n := by omega
    rw [hv]
    split
    · rfl
    · rename_i hcond
      exact absurd ⟨h1, h2⟩ hcond
  · unfold intToDecChars
    rw [if_neg hneg]
    obtain ⟨d, rest, hd, hshape⟩ := natDecChars_head n.toNat
    rw [hshape, parseI64_nosign_val (digitChar d) rest (digitChar_ne_sign d hd).1
      (digitChar_ne_sign d hd).2 n.toNat
      (by rw [← hshape]; exact parseDecDigits_natDec n.toNat)]
    have hv : (1 : Int) * ((n.toNat : Nat) : Int) = n := by omega
    rw [hv]
    split
    · rfl
    · rename_i hcond
      exact absurd ⟨h1, h2⟩ hcond

/-- Splitting at the first `:` after a colon-free tag recovers tag and
suffix. -/
theorem splitOnceChar_tag (tag suffix : Str) (h : ':' ∉ tag) :
    splitOnceChar ':' (tag ++ ':' :: suffix) = some (tag, suffix) := by
  induction tag with
  | nil => simp [splitOnceChar]
  | cons c t ih =>
    have hc : ¬ c = ':' := fun hc => h (by simp [hc])
    have ht : ':' ∉ t := fun hm => h (by simp [hm])
    simp only [List.cons_append, splitOnceChar, if_neg hc]
    rw [show t.append (':' :: suffix) = t ++ ':' :: suffix from rfl, ih ht]
    rfl

/-- C4 amended: for a client tag without `:`, `strip_prefixed_id` applied
to a response whose id is `prefix_id tag id` always recovers the tag, and
recovers the original id exactly when the id is an `i64`-range JSON number
or a JSON string that does not itself parse as an `i64`; in general a
string id comes back as a number whenever its text parses as an `i64`. -/
theorem C4_prefix_id_roundtrip (tag : Str) (htag : ':' ∉ tag) (message : Json) :
    (∀ s : Str, message.get (chars "id") = some (prefix_id tag (Json.str s)) →
      strip_prefixed_id message = some (tag,
        match parseI64 s with
        | some n => Json.num n
        | none => Json.str s)) ∧
    (∀ n : Int, -(2 ^ 63) ≤ n → n < 2 ^ 63 →
      message.get (chars "id") = some (prefix_id tag (Json.num n)) →
      strip_prefixed_id message = some (tag, Json.num n)) ∧
    (∀ s : Str, parseI64 s = none →
      message.get (chars "id") = some (prefix_id tag (Json.str s)) →
      strip_prefixed_id message = some (tag, Json.str s)) := by
  refine ⟨?_, ?_, ?_⟩
  · intro s hid
    unfold strip_prefixed_id
    rw [hid]
    simp only [prefix_id, Option.some_bind, Json.asStr, splitOnceChar_tag tag s htag]
  · intro n hn1 hn2 hid
    unfold strip_prefixed_id
    rw [hid]
    simp only [prefix_id, Option.some_bind, Json.asStr,
      splitOnceChar_tag tag (intToDecChars n) htag]
    rw [parseI64_roundtrip n hn1 hn2]
  · intro s hparse hid
    unfold strip_prefixed_id
    rw [hid]
    simp only [prefix_id, Option.some_bind, Json.asStr, splitOnceChar_tag tag s htag]
    rw [hparse]

/-- Witness for C4: an `i64` number id and a non-numeric string id both
round-trip through `prefix_id`/`strip_prefixed_id`. -/
theorem C4_prefix_id_roundtrip_witness :
    strip_prefixed_id (Json.obj [(chars "id",
      prefix_id (chars "client") (Json.num 42))]) =
      some (chars "client", Json.num 42) ∧
    strip_prefixed_id (Json.obj [(chars "id",
      prefix_id (chars "client") (Json.str (chars "a:b")))]) =
      some (chars "client", Json.str (chars "a:b")) := by
  constructor
  · exact (C4_prefix_id_roundtrip (chars "client") (by decide) _).2.1 42
      (by norm_num) (by norm_num) rfl
  · exact (C4_prefix_id_roundtrip (chars "client") (by decide) _).2.2
      (chars "a:b") rfl rfl

/-- C4 counterexample: the string id `"7"` does not round-trip — it is
restored as the JSON number `7`, so the client does not receive back the
id value it sent. -/
theorem C4_counterexample :
    strip_prefixed_id (Json.obj [(chars "id",
      prefix_id (chars "c") (Json.str (chars "7")))]) =
      some (chars "c", Json.num 7) ∧
    Json.num 7 ≠ Json.str (chars "7") :=
  ⟨rfl, fun h => Json.noConfusion h⟩

/-! ## Warm-cache persistence (C6) and protocol inference (C9) -/

/-- C6 counterexample: the effect trace of `persist_warm_hint_store` is a
`create_dir_all` followed by a single direct `fs::write` to the target
path — it contains no write to a temporary file and no rename. -/
theorem C6_counterexample :
    persist_warm_hint_store (chars "warm.json") (some (chars ".")) ⟨[]⟩ =
      .ok [FsOp.createDirAll (chars "."),
           FsOp.write (chars "warm.json") (serializeWarmHintStore ⟨[]⟩)] ∧
    (FsOp.createDirAll (chars ".")).isRename = false ∧
    (FsOp.write (chars "warm.json") (serializeWarmHintStore ⟨[]⟩)).isRename = false :=
  ⟨rfl, rfl, rfl⟩

/-- C6 amended: with a valid parent, `persist_warm_hint_store` performs
exactly `create_dir_all(parent)` then one `fs::write` of the serialized
JSON directly to the target path; no rename is ever performed and nothing
is written to any other path, so the write is not temp-file atomic. -/
theorem C6_persist_writes_target_directly (path parent : Str)
    (store : WarmHintStore) :
    persist_warm_hint_store path (some parent) store =
      .ok [FsOp.createDirAll parent,
           FsOp.write path (serializeWarmHintStore store)] ∧
    (∀ ops op, persist_warm_hint_store path (some parent) store = .ok ops →
      op ∈ ops → op.isRename = false) ∧
    (∀ ops p c, persist_warm_hint_store path (some parent) store = .ok ops →
      FsOp.write p c ∈ ops → p = path ∧ c = serializeWarmHintStore store) := by
  refine ⟨rfl, ?_, ?_⟩
  · intro ops op hok hmem
    cases hok
    rcases List.mem_cons.mp hmem with h | h
    · subst h; rfl
    · rcases List.mem_cons.mp h with h2 | h2
      · subst h2; rfl
      · simp at h2
  · intro ops p c hok hmem
    cases hok
    rcases List.mem_cons.mp hmem with h | h
    · exact absurd h (by intro hx; exact FsOp.noConfusion hx)
    · rcases List.mem_cons.mp h with h2 | h2
      · injection h2 with hp hc
        exact ⟨hp, hc⟩
      · simp at h2

/-- Witness for C6: neither performed effect is a rename, via the amended
theorem at a concrete path and store. -/
theorem C6_persist_writes_target_directly_witness :
    (FsOp.createDirAll (chars "d")).isRename = false ∧
    (FsOp.write (chars "w.json") (serializeWarmHintStore ⟨[]⟩)).isRename = false :=
  ⟨(C6_persist_writes_target_directly (chars "w.json") (chars "d") ⟨[]⟩).2.1
      _ _ rfl (by simp),
   (C6_persist_writes_target_directly (chars "w.json") (chars "d") ⟨[]⟩).2.1
      _ _ rfl (by simp)⟩

/-- SSE-segment detection on the parsed path matches the existential
reading. -/
theorem hasSseSegment_iff (segs : Option (List Str)) :
    (segs.map fun l => l.any fun seg => eqIgnoreAsciiCase seg (chars "sse")).getD
        false = true ↔
      ∃ seg ∈ segs.getD [], eqIgnoreAsciiCase seg (chars "sse") = true := by
  cases segs with
  | none => simp
  | some l => simp [List.any_eq_true]

/-- C9: scheme→transport mapping of `infer_protocol` on a parsed URL:
ws/wss → WebSocket, grpc/grpcs → gRPC, http/https → SSE exactly when some
path segment is `sse` case-insensitively (otherwise Streamable HTTP), any
other scheme → error, and the query string never influences the result. -/
theorem C9_infer_protocol_mapping (url : ParsedUrl) :
    ((url.scheme = chars "ws" ∨ url.scheme = chars "wss") →
      infer_protocol url = .ok ConnectProtocol.Ws) ∧
    ((url.scheme = chars "grpc" ∨ url.scheme = chars "grpcs") →
      infer_protocol url = .ok ConnectProtocol.Grpc) ∧
    ((url.scheme = chars "http" ∨ url.scheme = chars "https") →
      (infer_protocol url = .ok ConnectProtocol.Sse ↔
        ∃ seg ∈ url.pathSegments.getD [],
          eqIgnoreAsciiCase seg (chars "sse") = true) ∧
      (infer_protocol url = .ok ConnectProtocol.Sse ∨
        infer_protocol url = .ok ConnectProtocol.StreamableHttp)) ∧
    ((¬ (url.scheme = chars "ws" ∨ url.scheme = chars "wss" ∨
        url.scheme = chars "grpc" ∨ url.scheme = chars "grpcs" ∨
        url.scheme = chars "http" ∨ url.scheme = chars "https")) →
      infer_protocol url = .error (chars "Unsupported endpoint scheme '" ++
        url.scheme ++
        chars "'. Use ws://, wss://, http://, https://, grpc://, or grpcs://")) ∧
    (∀ q q', infer_protocol { url with query := q } =
      infer_protocol { url with query := q' }) := by
  refine ⟨?_, ?_, ?_, ?_, fun q q' => rfl⟩
  · intro h
    unfold infer_protocol
    rw [if_pos h]
  · intro h
    unfold infer_protocol
    rcases h with h | h <;> rw [h] <;>
      rw [if_neg (by decide), if_pos (by decide)]
  · intro h
    unfold infer_protocol
    have hne1 : ¬ (url.scheme = chars "ws" ∨ url.scheme = chars "wss") := by
      rcases h with h | h <;> rw [h] <;> decide
    have hne2 : ¬ (url.scheme = chars "grpc" ∨ url.scheme = chars "grpcs") := by
      rcases h with h | h <;> rw [h] <;> decide
    rw [if_neg hne1, if_neg hne2, if_pos h]
    by_cases hs : (url.pathSegments.map fun segs =>
        segs.any fun seg => eqIgnoreAsciiCase seg (chars "sse")).getD false = true
    · rw [if_pos hs]
      exact ⟨⟨fun _ => (hasSseSegment_iff url.pathSegments).mp hs,
        fun _ => rfl⟩, Or.inl rfl⟩
    · rw [if_neg hs]
      constructor
      · constructor
        · intro hEq
          exact absurd hEq (by simp)
        · intro hEx
          exact absurd ((hasSseSegment_iff url.pathSegments).mpr hEx) hs
      · exact Or.inr rfl
  · intro h
    unfold infer_protocol
    rw [if_neg (fun hc => h (by tauto)), if_neg (fun hc => h (by tauto)),
      if_neg (fun hc => h (by tauto))]

/-- Witness for C9: a `wss` URL maps to WebSocket ignoring a
`?transport=grpc` query, an uppercase `/SSE` segment selects SSE, and an
`ftp` scheme errors. -/
theorem C9_infer_protocol_mapping_witness :
    infer_protocol ⟨chars "wss", none, some (chars "transport=grpc")⟩ =
      .ok ConnectProtocol.Ws ∧
    infer_protocol ⟨chars "http", some [chars "mcp", chars "SSE"], none⟩ =
      .ok ConnectProtocol.Sse ∧
    infer_protocol ⟨chars "ftp", none, none⟩ =
      .error (chars "Unsupported endpoint scheme '" ++ chars "ftp" ++
        chars "'. Use ws://, wss://, http://, https://, grpc://, or grpcs://") := by
  refine ⟨?_, ?_, ?_⟩
  · exact (C9_infer_protocol_mapping _).1 (Or.inr rfl)
  · exact ((C9_infer_protocol_mapping
      ⟨chars "http", some [chars "mcp", chars "SSE"], none⟩).2.2.1
        (Or.inl rfl)).1.mpr ⟨chars "SSE", by simp, by decide⟩
  · exact (C9_infer_protocol_mapping _).2.2.2.1 (by decide)

/-! ## Transport fingerprint (C7) -/

/-- `strLeB` is total. -/
theorem strLeB_total : ∀ a b : Str, (strLeB a b || strLeB b a) = true := by
  intro a
  induction a with
  | nil => intro b; simp [strLeB]
  | cons x xs ih =>
    intro b
    cases b with
    | nil => simp [strLeB]
    | cons y ys =>
      by_cases hxy : x = y
      · subst hxy
        simp only [strLeB, if_pos rfl]
        exact ih ys
      · have hyx : ¬ y = x := fun h => hxy h.symm
        simp only [strLeB, if_neg hxy, if_neg hyx]
        rcases lt_trichotomy x y with h | h | h
        · simp [h]
        · exact absurd h hxy
        · simp [h]

/-- `strLeB` is transitive. -/
theorem strLeB_trans :
    ∀ a b c : Str, strLeB a b = true → strLeB b c = true → strLeB a c = true := by
  intro a
  induction a with
  | nil => intro b c _ _; simp [strLeB]
  | cons x xs ih =>
    intro b c hab hbc
    cases b with
    | nil => simp [strLeB] at hab
    | cons y ys =>
      cases c with
      | nil => simp [strLeB] at hbc
      | cons z zs =>
        by_cases hxy : x = y <;> by_cases hyz : y = z
        · subst hxy; subst hyz
          simp only [strLeB, if_pos rfl] at hab hbc ⊢
          exact ih ys zs hab hbc
        · subst hxy
          simp only [strLeB, if_pos rfl, if_neg hyz] at hab hbc ⊢
          exact hbc
        · subst hyz
          simp only [strLeB, if_neg hxy] at hab ⊢
          exact hab
        · simp only [strLeB, if_neg hxy, if_neg hyz] at hab hbc
          have hxz : x < z := lt_trans (of_decide_eq_true hab) (of_decide_eq_true hbc)
          have hne : ¬ x = z := ne_of_lt hxz
          simp only [strLeB, if_neg hne]
          simpa using hxz

/-- `strLeB` is antisymmetric. -/
theorem strLeB_antisymm :
    ∀ a b : Str, strLeB a b = true → strLeB b a = true → a = b := by
  intro a
  induction a with
  | nil =>
    intro b _ hba
    cases b with
    | nil => rfl
    | cons y ys => simp [strLeB] at hba
  | cons x xs ih =>
    intro b hab hba
    cases b with
    | nil => simp [strLeB] at hab
    | cons y ys =>
      by_cases hxy : x = y
      · subst hxy
        simp only [strLeB, if_pos rfl] at hab hba
        rw [ih ys hab hba]
      · have hyx : ¬ y = x := fun h => hxy h.symm
        simp only [strLeB, if_neg hxy, if_neg hyx] at hab hba
        exact absurd (of_decide_eq_true hab) (lt_asymm (of_decide_eq_true hba))

/-- Sorting with `strLeB` maps permutations to the same list. -/
theorem sortStrs_perm_congr (l1 l2 : List Str) (h : l1.Perm l2) :
    sortStrs l1 = sortStrs l2 := by
  haveI : IsAntisymm Str (fun a b => strLeB a b = true) :=
    ⟨fun a b => strLeB_antisymm a b⟩
  exact List.eq_of_perm_of_sorted
    ((List.mergeSort_perm l1 strLeB).trans (h.trans (List.mergeSort_perm l2 strLeB).symm))
    (List.sorted_mergeSort strLeB_trans strLeB_total l1)
    (List.sorted_mergeSort strLeB_trans strLeB_total l2)

/-- C7 amended: the fingerprint is stable under any permutation of the
header map, and the hashed payload changes whenever the transport,
endpoint, or protocol version alone changes; a header-map change alters
the payload exactly when it alters the sorted lowercased `key=value` join
(so a change of key case only, which preserves that join, leaves the
fingerprint unchanged). -/
theorem C7_fingerprint_stability (t t' e e' p p' : Str)
    (h h' : List (Str × Str)) :
    (h.Perm h' → transport_fingerprint t e h p = transport_fingerprint t e h' p) ∧
    (fingerprintPayload t e h p = fingerprintPayload t' e h p → t = t') ∧
    (fingerprintPayload t e h p = fingerprintPayload t e' h p → e = e') ∧
    (fingerprintPayload t e h p = fingerprintPayload t e h p' → p = p') ∧
    (fingerprintPayload t e h p = fingerprintPayload t e h' p ↔
      joinSep ';' (sortStrs (headerPairs h)) = joinSep ';' (sortStrs (headerPairs h'))) := by
  refine ⟨?_, ?_, ?_, ?_, ?_⟩
  · intro hperm
    unfold transport_fingerprint fingerprintPayload
    rw [sortStrs_perm_congr (headerPairs h) (headerPairs h') (hperm.map _)]
  · intro heq
    unfold fingerprintPayload at heq
    simp only [List.append_assoc, List.cons_append] at heq
    have hlen : t.length = t'.length := by
      have := congrArg List.length heq
      simp only [List.length_append, List.length_cons] at this
      omega
    exact (List.append_inj heq hlen).1
  · intro heq
    unfold fingerprintPayload at heq
    simp only [List.append_assoc, List.cons_append] at heq
    have heq2 := (List.cons.injEq _ _ _ _).mp (List.append_cancel_left heq)
    have hlen : e.length = e'.length := by
      have := congrArg List.length heq2.2
      simp only [List.length_append, List.length_cons] at this
      omega
    exact (List.append_inj heq2.2 hlen).1
  · intro heq
    unfold fingerprintPayload at heq
    simp only [List.append_assoc, List.cons_append] at heq
    have h2 := (List.cons.injEq _ _ _ _).mp (List.append_cancel_left heq)
    have h3 := (List.cons.injEq _ _ _ _).mp (List.append_cancel_left h2.2)
    have hlen : p.length = p'.length := by
      have := congrArg List.length h3.2
      simp only [List.length_append, List.length_cons] at this
      omega
    exact (List.append_inj h3.2 hlen).1
  · constructor
    · intro heq
      unfold fingerprintPayload at heq
      simp only [List.append_assoc, List.cons_append] at heq
      have h2 := (List.cons.injEq _ _ _ _).mp (List.append_cancel_left heq)
      have h3 := (List.cons.injEq _ _ _ _).mp (List.append_cancel_left h2.2)
      have h4 := (List.cons.injEq _ _ _ _).mp (List.append_cancel_left h3.2)
      exact h4.2
    · intro hjoin
      unfold fingerprintPayload
      rw [hjoin]

/-- Witness for C7: reordering two header pairs leaves the fingerprint
unchanged. -/
theorem C7_fingerprint_stability_witness :
    transport_fingerprint (chars "sse-request") (chars "https://example.com/sse")
      [(chars "a", chars "1"), (chars "b", chars "2")] (chars "2024-11-05") =
    transport_fingerprint (chars "sse-request") (chars "https://example.com/sse")
      [(chars "b", chars "2"), (chars "a", chars "1")] (chars "2024-11-05") :=
  (C7_fingerprint_stability (chars "sse-request") (chars "sse-request")
    (chars "https://example.com/sse") (chars "https://example.com/sse")
    (chars "2024-11-05") (chars "2024-11-05")
    [(chars "a", chars "1"), (chars "b", chars "2")]
    [(chars "b", chars "2"), (chars "a", chars "1")]).1
    (List.Perm.swap _ _ _)

/-- C7 counterexample: changing the single header pair
`("Authorization", "Bearer t")` to `("authorization", "Bearer t")` — a
genuine change of the pair — leaves the fingerprint unchanged, because
keys are lowercased before hashing. -/
theorem C7_counterexample :
    transport_fingerprint (chars "sse-request") (chars "https://example.com/sse")
      [(chars "Authorization", chars "Bearer t")] (chars "2024-11-05") =
    transport_fingerprint (chars "sse-request") (chars "https://example.com/sse")
      [(chars "authorization", chars "Bearer t")] (chars "2024-11-05") ∧
    ¬ ((chars "Authorization", chars "Bearer t") =
      ((chars "authorization", chars "Bearer t") : Str × Str)) := by
  constructor
  · unfold transport_fingerprint fingerprintPayload headerPairs sortStrs
    simp only [List.map_cons, List.map_nil, List.mergeSort_singleton]
    rw [show asciiLower (chars "Authorization") = asciiLower (chars "authorization")
      from by decide]
  · decide

/-! ## Tool-call argument normalization (C8) -/

/-- `containsKey` agrees with `getField` presence. -/
theorem containsKey_eq_isSome (kvs : List (Str × Json)) (k : Str) :
    containsKey kvs k = (getField kvs k).isSome := by
  induction kvs with
  | nil => rfl
  | cons q rest ih =>
    obtain ⟨k1, v1⟩ := q
    by_cases h : k1 = k
    · simp [containsKey, getField, h]
    · simp only [containsKey, getField, if_neg h]
      exact ih

/-- `modifyValue` leaves other keys untouched. -/
theorem getField_modifyValue_ne (kvs : List (Str × Json)) (k k' : Str)
    (f : Json → Json) (h : ¬ k' = k) :
    getField (modifyValue kvs k f) k' = getField kvs k' := by
  induction kvs with
  | nil => rfl
  | cons q rest ih =>
    obtain ⟨k1, v1⟩ := q
    by_cases h1 : k1 = k
    · subst h1
      have : ¬ k1 = k' := fun he => h he.symm
      simp [modifyValue, getField, this]
    · by_cases h2 : k1 = k'
      · simp [modifyValue, getField, if_neg h1, h2, if_neg h]
      · simp only [modifyValue, getField, if_neg h1, if_neg h2]
        exact ih

/-- `modifyValue` maps the value at its key. -/
theorem getField_modifyValue_self (kvs : List (Str × Json)) (k : Str)
    (f : Json → Json) :
    getField (modifyValue kvs k f) k = (getField kvs k).map f := by
  induction kvs with
  | nil => rfl
  | cons q rest ih =>
    obtain ⟨k1, v1⟩ := q
    by_cases h1 : k1 = k
    · simp [modifyValue, getField, h1]
    · simp only [modifyValue, getField, if_neg h1]
      exact ih

/-- Lookup distributes over append. -/
theorem getField_append (a b : List (Str × Json)) (k : Str) :
    getField (a ++ b) k = ((getField a k).or (getField b k)) := by
  induction a with
  | nil => simp [getField]
  | cons q rest ih =>
    obtain ⟨k1, v1⟩ := q
    by_cases h1 : k1 = k
    · simp [getField, h1]
    · simp only [List.cons_append, getField, if_neg h1]
      exact ih

/-- Keys that are not properties are untouched by the defaults walk. -/
theorem applyDefaultsProps_getField_absent (props : List (Str × Json)) :
    ∀ (args : List (Str × Json)) (k : Str), getField props k = none →
      getField (applyDefaultsProps props args) k = getField args k := by
  induction props with
  | nil => intro args k _; simp [applyDefaultsProps]
  | cons q rest ih =>
    intro args k hfind
    obtain ⟨key, ps⟩ := q
    have hkey : ¬ key = k := by
      intro he
      simp [getField, he] at hfind
    simp only [getField, if_neg hkey] at hfind
    simp only [applyDefaultsProps]
    rw [ih _ k hfind]
    rw [getField_modifyValue_ne _ _ _ _ (fun he => hkey he.symm)]
    by_cases hc : containsKey args key
    · rw [if_pos hc]
    · rw [if_neg hc]
      cases hd : ps.get (chars "default") with
      | none => rfl
      | some d =>
        rw [getField_append]
        simp [getField, hkey]

/-- A key outside the key set has no field. -/
theorem getField_eq_none_of_keys (l : List (Str × Json)) (k : Str)
    (h : ¬ k ∈ l.map Prod.fst) : getField l k = none := by
  induction l with
  | nil => rfl
  | cons q rest ih =>
    obtain ⟨k1, v1⟩ := q
    simp only [List.map_cons, List.mem_cons] at h
    push_neg at h
    simp only [getField, if_neg (show ¬ k1 = k from fun he => h.1 he.symm)]
    exact ih h.2

/-- Lookup characterization of the defaults walk at a property key:
present values are resolved in place (never replaced), absent keys receive
the property's resolved `default` when there is one. -/
theorem applyDefaultsProps_getField (props : List (Str × Json)) :
    ∀ (args : List (Str × Json)) (k : Str) (ps : Json),
      getField props k = some ps → (props.map Prod.fst).Nodup →
      getField (applyDefaultsProps props args) k =
        (match getField args k with
         | some v => some (defaultResolved ps v)
         | none => (Json.get ps (chars "default")).map (defaultResolved ps)) := by
  induction props with
  | nil => intro args k ps h _; simp [getField] at h
  | cons q rest ih =>
    intro args k ps hfind hnd
    obtain ⟨key, qs⟩ := q
    simp only [List.map_cons, List.nodup_cons] at hnd
    by_cases hk : key = k
    · subst hk
      simp [getField] at hfind
      subst hfind
      have hrest : getField rest key = none :=
        getField_eq_none_of_keys rest key hnd.1
      simp only [applyDefaultsProps]
      rw [applyDefaultsProps_getField_absent rest _ key hrest,
        getField_modifyValue_self]
      by_cases hc : containsKey args key
      · rw [if_pos hc]
        have hs : (getField args key).isSome = true := by
          rw [← containsKey_eq_isSome]; exact hc
        obtain ⟨v, hv⟩ := Option.isSome_iff_exists.mp hs
        rw [hv]
        rfl
      · have hnone : getField args key = none := by
          have : (getField args key).isSome = false := by
            rw [← containsKey_eq_isSome]
            exact Bool.of_not_eq_true hc
          cases hg : getField args key
          · rfl
          · rw [hg] at this; simp at this
        rw [if_neg hc, hnone]
        cases hd : Json.get qs (chars "default") with
        | none => simp [hnone]
        | some d =>
          rw [getField_append, hnone]
          simp [getField]
    · simp only [getField, if_neg hk] at hfind
      simp only [applyDefaultsProps]
      rw [ih _ k ps hfind hnd.2]
      have hstep : getField (modifyValue
          (if containsKey args key then args
           else match Json.get qs (chars "default") with
             | some d => args ++ [(key, d)]
             | none => args) key (defaultResolved qs)) k = getField args k := by
        rw [getField_modifyValue_ne _ _ _ _ (fun he => hk he.symm)]
        by_cases hc : containsKey args key
        · rw [if_pos hc]
        · rw [if_neg hc]
          cases hd : Json.get qs (chars "default") with
          | none => rfl
          | some d =>
            rw [getField_append]
            have : getField [(key, d)] k = none := by simp [getField, hk]
            rw [this]
            cases getField args k <;> rfl
      rw [hstep]

/-- `find?` returns the head of the filtered list. -/
theorem find?_eq_head_filter (p : α → Bool) :
    ∀ l : List α, l.find? p = (l.filter p).head? := by
  intro l
  induction l with
  | nil => rfl
  | cons a t ih =>
    cases h : p a
    · have hne : ¬ p a = true := by rw [h] ; exact Bool.false_ne_true
      rw [List.find?_cons_of_neg t hne, List.filter_cons_of_neg hne]
      exact ih
    · rw [List.find?_cons_of_pos t h, List.filter_cons_of_pos h, List.head?_cons]

/-- A found field is structurally smaller than the field list. -/
theorem sizeOf_getField_lt (fs : List (Str × Json)) (k : Str) (v : Json)
    (h : getField fs k = some v) : sizeOf v < sizeOf fs := by
  induction fs with
  | nil => simp [getField] at h
  | cons p rest ih =>
    obtain ⟨k1, v1⟩ := p
    simp only [getField] at h
    split at h
    · cases h; simp; omega
    · have := ih h; simp; omega

/-- The validator returns `Ok` or reports exactly the first entry of the
violation list, in traversal order. -/
theorem validate_matches_violations (N : Nat) (tool : Str) :
    ∀ (schema : Json) (args : List (Str × Json)) (path : Str), sizeOf schema ≤ N →
      validateRequiredObject tool schema args path =
        (match requiredViolations schema args path with
         | [] => Except.ok ()
         | (p, k) :: _ => Except.error (ToolCallError.MissingRequired tool p k)) := by
  induction N using Nat.strong_induction_on with
  | _ N ihN =>
    intro schema args path hN
    have hProps : ∀ (props : List (Str × Json)), (∀ q ∈ props, sizeOf q.2 + 1 ≤ N) →
        ∀ (args2 : List (Str × Json)) (path2 : Str),
          validateRequiredProps tool props args2 path2 =
            (match requiredViolationsProps props args2 path2 with
             | [] => Except.ok ()
             | (p, k) :: _ => Except.error (ToolCallError.MissingRequired tool p k)) := by
      intro props
      induction props with
      | nil =>
        intro _ args2 path2
        simp only [validateRequiredProps, requiredViolationsProps]
      | cons q rest ihp =>
        intro hsz args2 path2
        obtain ⟨key, qs⟩ := q
        have hq : sizeOf qs + 1 ≤ N := by
          have := hsz (key, qs) (by simp)
          simpa using this
        have hrest : ∀ q ∈ rest, sizeOf q.2 + 1 ≤ N := by
          intro q hqm
          exact hsz q (by simp [hqm])
        simp only [validateRequiredProps, requiredViolationsProps]
        by_cases ho : isObjectSchema qs = true
        · simp only [ho, if_true]
          cases hv : getField args2 key with
          | none =>
            dsimp only
            rw [List.nil_append]
            exact ihp hrest args2 path2
          | some v =>
            cases v with
            | obj vo =>
              dsimp only
              rw [ihN (sizeOf qs) (by omega) qs vo (path2 ++ '.' :: key) (le_refl _)]
              cases hviol : requiredViolations qs vo (path2 ++ '.' :: key) with
              | nil =>
                dsimp only
                rw [List.nil_append]
                exact ihp hrest args2 path2
              | cons pk tl =>
                obtain ⟨p1, k1⟩ := pk
                dsimp only
                rw [List.cons_append]
            | null =>
              dsimp only
              rw [List.nil_append]
              exact ihp hrest args2 path2
            | bool b =>
              dsimp only
              rw [List.nil_append]
              exact ihp hrest args2 path2
            | num n =>
              dsimp only
              rw [List.nil_append]
              exact ihp hrest args2 path2
            | str s =>
              dsimp only
              rw [List.nil_append]
              exact ihp hrest args2 path2
            | arr items =>
              dsimp only
              rw [List.nil_append]
              exact ihp hrest args2 path2
        · simp only [Bool.of_not_eq_true ho, Bool.false_eq_true, if_false,
            List.nil_append]
          exact ihp hrest args2 path2
    cases schema with
    | null => simp only [validateRequiredObject, requiredViolations]
    | bool b => simp only [validateRequiredObject, requiredViolations]
    | num n => simp only [validateRequiredObject, requiredViolations]
    | str s => simp only [validateRequiredObject, requiredViolations]
    | arr items => simp only [validateRequiredObject, requiredViolations]
    | obj fields =>
      simp only [validateRequiredObject, requiredViolations, firstMissing]
      rw [find?_eq_head_filter]
      cases hf : (requiredKeys fields).filter (fun key => !containsKey args key) with
      | cons key tl =>
        simp only [List.head?_cons, List.map_cons, List.cons_append]
      | nil =>
        simp only [List.head?_nil, List.map_nil, List.nil_append]
        cases hgp : getField fields (chars "properties") with
        | none => dsimp only
        | some pv =>
          cases pv with
          | obj props =>
            dsimp only
            have hsub : ∀ q ∈ props, sizeOf q.2 + 1 ≤ N := by
              intro q hqm
              have h1 := List.sizeOf_lt_of_mem hqm
              have h2 := sizeOf_getField_lt fields _ _ hgp
              obtain ⟨a, b⟩ := q
              simp at h1 h2 ⊢
              simp at hN
              omega
            exact hProps props hsub args path
          | null => dsimp only
          | bool b => dsimp only
          | num n => dsimp only
          | str s => dsimp only
          | arr items => dsimp only

/-- Unfolding of the defaults walk at an object schema with object-valued
`properties`. -/
theorem applyDefaultsObject_props (fields props args : List (Str × Json))
    (hp : getField fields (chars "properties") = some (Json.obj props)) :
    applyDefaultsObject (Json.obj fields) args = applyDefaultsProps props args := by
  simp only [applyDefaultsObject]
  split
  · rename_i props1 heq
    rw [hp] at heq
    cases heq
    rfl
  · rename_i hno
    exact absurd hp (hno props)

/-- C8: `normalize_args_for_tool` rejects non-object arguments with
`InvalidArguments`; for object arguments under an object schema it first
injects defaults (`applyDefaultsObject`) and then returns the defaulted
object, or the first `required` violation (in traversal order, path rooted
at `$`) as `MissingRequired` with the tool name, dotted path and key. The
defaults walk, at each property key: a present value is resolved in place
and never replaced by the default; an absent key receives the property's
resolved `default` when one exists; resolution recurses exactly into
object-valued values of object-schema properties and leaves everything
else unchanged. -/
theorem C8_normalize_args_defaults_required (md : ToolMetadata) (args : Json) :
    (args.isObj = false →
      normalize_args_for_tool md args =
        .error (ToolCallError.InvalidArguments
          (chars "Tool '" ++ md.name ++ chars "' expects JSON object arguments"))) ∧
    (∀ kvs, args = Json.obj kvs → isObjectSchema md.input_schema = true →
      normalize_args_for_tool md args =
        (match requiredViolations md.input_schema
            (applyDefaultsObject md.input_schema kvs) (chars "$") with
         | [] => .ok (Json.obj (applyDefaultsObject md.input_schema kvs))
         | (p, k) :: _ => .error (ToolCallError.MissingRequired md.name p k))) ∧
    (∀ (fields props argsKvs : List (Str × Json)),
      getField fields (chars "properties") = some (Json.obj props) →
      (props.map Prod.fst).Nodup →
      (∀ (k : Str) (ps : Json), getField props k = some ps →
        getField (applyDefaultsObject (Json.obj fields) argsKvs) k =
          (match getField argsKvs k with
           | some v => some (defaultResolved ps v)
           | none => (Json.get ps (chars "default")).map (defaultResolved ps))) ∧
      (∀ k : Str, getField props k = none →
        getField (applyDefaultsObject (Json.obj fields) argsKvs) k =
          getField argsKvs k)) ∧
    (∀ (ps : Json) (vo : List (Str × Json)), isObjectSchema ps = true →
      defaultResolved ps (Json.obj vo) = Json.obj (applyDefaultsObject ps vo)) ∧
    (∀ (ps v : Json), isObjectSchema ps = false → defaultResolved ps v = v) := by
  refine ⟨?_, ?_, ?_, ?_, ?_⟩
  · intro h
    simp only [normalize_args_for_tool, h, Bool.not_false, if_true]
  · intro kvs hargs hobj
    subst hargs
    simp only [normalize_args_for_tool, Json.isObj, Bool.not_true, Bool.false_eq_true,
      if_false, apply_defaults, hobj, validate_required]
    rw [validate_matches_violations (sizeOf md.input_schema) md.name md.input_schema
      (applyDefaultsObject md.input_schema kvs) (chars "$") (le_refl _)]
    cases requiredViolations md.input_schema
        (applyDefaultsObject md.input_schema kvs) (chars "$") with
    | nil => rfl
    | cons pk tl =>
      obtain ⟨p, k⟩ := pk
      rfl
  · intro fields props argsKvs hp hnd
    have heq := applyDefaultsObject_props fields props argsKvs hp
    constructor
    · intro k ps h
      rw [heq]
      exact applyDefaultsProps_getField props argsKvs k ps h hnd
    · intro k h
      rw [heq]
      exact applyDefaultsProps_getField_absent props argsKvs k h
  · intro ps vo h
    simp only [defaultResolved, h, if_true]
  · intro ps v h
    unfold defaultResolved
    rw [h]
    simp only [Bool.false_eq_true, if_false]

/-- Defaults walk at an object schema without object-valued `properties`:
the arguments are unchanged. -/
theorem applyDefaultsObject_noProps (fields args : List (Str × Json))
    (hp : ∀ props, getField fields (chars "properties") ≠ some (Json.obj props)) :
    applyDefaultsObject (Json.obj fields) args = args := by
  simp only [applyDefaultsObject]

/-- Violation collector at an object schema without object-valued
`properties`: only the current level's `required` keys are checked. -/
theorem requiredViolations_noProps (fields args : List (Str × Json)) (path : Str)
    (hp : ∀ props, getField fields (chars "properties") ≠ some (Json.obj props)) :
    requiredViolations (Json.obj fields) args path =
      ((requiredKeys fields).filter fun key => !containsKey args key).map
        (fun key => (path, key)) := by
  simp only [requiredViolations]
  rw [List.append_nil]

/-- Witness for C8 at concrete inputs: the schema
`\x7b required: [city] \x7d` rejects the non-object argument `3` with the
exact `InvalidArguments` message and reports `($, city)` for `\x7b\x7d`;
the schema `\x7b properties: \x7b units: \x7b default: metric \x7d \x7d \x7d`
fills the absent `units` key with `metric` and leaves `city` absent; an
object-schema property default-resolves an object value recursively. -/
theorem C8_normalize_args_defaults_required_witness :
    normalize_args_for_tool
        ⟨chars "weather", Json.obj [(chars "required", Json.arr [Json.str (chars "city")])]⟩
        (Json.num 3) =
      .error (ToolCallError.InvalidArguments
        (chars "Tool '" ++ chars "weather" ++ chars "' expects JSON object arguments")) ∧
    normalize_args_for_tool
        ⟨chars "weather", Json.obj [(chars "required", Json.arr [Json.str (chars "city")])]⟩
        (Json.obj []) =
      .error (ToolCallError.MissingRequired (chars "weather") (chars "$") (chars "city")) ∧
    getField (applyDefaultsObject
        (Json.obj [(chars "properties",
          Json.obj [(chars "units", Json.obj [(chars "default", Json.str (chars "metric"))])])])
        []) (chars "units") = some (Json.str (chars "metric")) ∧
    getField (applyDefaultsObject
        (Json.obj [(chars "properties",
          Json.obj [(chars "units", Json.obj [(chars "default", Json.str (chars "metric"))])])])
        []) (chars "city") = none ∧
    defaultResolved
        (Json.obj [(chars "type", Json.str (chars "object")),
          (chars "required", Json.arr [Json.str (chars "city")])])
        (Json.obj []) = Json.obj [] := by
  refine ⟨?_, ?_, ?_, ?_, ?_⟩
  · exact (C8_normalize_args_defaults_required
      ⟨chars "weather", Json.obj [(chars "required", Json.arr [Json.str (chars "city")])]⟩
      (Json.num 3)).1 rfl
  · have h2 := (C8_normalize_args_defaults_required
      ⟨chars "weather", Json.obj [(chars "required", Json.arr [Json.str (chars "city")])]⟩
      (Json.obj [])).2.1 [] rfl rfl
    rw [h2, applyDefaultsObject_noProps _ _ (fun props h => Option.noConfusion h),
      requiredViolations_noProps _ _ _ (fun props h => Option.noConfusion h)]
    rfl
  · have h3 := ((C8_normalize_args_defaults_required
      ⟨chars "weather", Json.null⟩ Json.null).2.2.1
      [(chars "properties",
        Json.obj [(chars "units", Json.obj [(chars "default", Json.str (chars "metric"))])])]
      [(chars "units", Json.obj [(chars "default", Json.str (chars "metric"))])]
      [] rfl (by simp)).1 (chars "units")
      (Json.obj [(chars "default", Json.str (chars "metric"))]) rfl
    rw [h3]
    show some (defaultResolved (Json.obj [(chars "default", Json.str (chars "metric"))])
      (Json.str (chars "metric"))) = _
    rw [(C8_normalize_args_defaults_required ⟨chars "weather", Json.null⟩ Json.null).2.2.2.2
      (Json.obj [(chars "default", Json.str (chars "metric"))]) (Json.str (chars "metric")) rfl]
  · exact ((C8_normalize_args_defaults_required
      ⟨chars "weather", Json.null⟩ Json.null).2.2.1
      [(chars "properties",
        Json.obj [(chars "units", Json.obj [(chars "default", Json.str (chars "metric"))])])]
      [(chars "units", Json.obj [(chars "default", Json.str (chars "metric"))])]
      [] rfl (by simp)).2 (chars "city") rfl
  · rw [(C8_normalize_args_defaults_required ⟨chars "weather", Json.null⟩ Json.null).2.2.2.1
      (Json.obj [(chars "type", Json.str (chars "object")),
        (chars "required", Json.arr [Json.str (chars "city")])]) [] rfl,
      applyDefaultsObject_noProps _ _ (fun props h => Option.noConfusion h)]
